import Mathlib

/-! rtl_entropy: the debiasing, health-check and conditioning pipeline.

A shallow embedding of the main loop of `src/rtl_entropy.c` (lines 326-449).

* The two byte arrays `bitbuffer` and `bitbuffer_old` are lists of bytes
  (`Nat`, below 256) of length `BUFFER_SIZE`.
* `BUFFER_SIZE` and `MAXIMAL_BUF_LENGTH` come from `defines.h`, which is not
  part of the sources at hand; they are fields of `Cfg` (2500 for `BUFFER_SIZE`
  in the specification).
* The collaborators `fips_run_rng_test`, `store_hash_data` / `hash_loop` and
  `SHA512` + `aes_init` + `aes_encrypt` are fields of `Cfg` too: deterministic
  functions of what they have been handed so far.
* Four observation lists are kept next to the C variables: `hashed` (the
  arguments of the `store_hash_data` calls), `appended` (the bits the debiaser
  stored in `bitbuffer`), `log` (one record per completed block), `sink`
  (the payload of every `fwrite`).
-/

namespace RtlEntropy

/-- Signal number of SIGPIPE in signal.h. -/
def SIGPIPE : Int := 13

/-- Modelled from the spec: `N_FIPS_TESTS` of `fips.h` (not among the sources);
the failure mask ranges over the five FIPS 140-2 tests monobit, poker, runs,
long-run and continuous-run. -/
def N_FIPS_TESTS : Nat := 5

/-- One completed block: what was handed to `fips_run_rng_test`, the mask it
returned, and the payloads of the `fwrite` calls made while handling it. -/
structure Completion where
  block : List Nat
  fips_result : Int
  written : List (List Nat)
deriving DecidableEq, Repr

/-- Constants of the missing headers and the external collaborators. -/
structure Cfg where
  /-- Size of `bitbuffer` and `bitbuffer_old` in bytes (`defines.h`). -/
  BUFFER_SIZE : Nat
  /-- Value of `MAXIMAL_BUF_LENGTH`, the number of samples asked per read. -/
  out_block_size : Nat
  /-- Flag set by `-e`. -/
  gflags_encryption : Int
  /-- Flag set by `-b`. -/
  gflags_detach : Int
  /-- Result of `fips_run_rng_test(&fipsctx, &bitbuffer)`; the context is
  represented by the blocks tested before, in order. -/
  fips_run_rng_test : List (List Nat) → List Nat → Int
  /-- Value of the global `hash_loop` after the given `store_hash_data` calls. -/
  hash_loop : List Nat → Bool
  /-- Ciphertext produced by lines 398-404: `SHA512` of the hash buffer filled
  by the given `store_hash_data` calls, `aes_init`, `aes_encrypt` of the block. -/
  aes_encrypt : List Nat → List Nat → List Nat

/-- The globals and locals of `main` that the loop body reads and writes,
with the observation lists. -/
structure State where
  bitbuffer : List Nat
  bitbuffer_old : List Nat
  bitcounter : Nat
  buffercounter : Nat
  output_ready : Int
  hashed : List Nat
  appended : List Nat
  sink : List (List Nat)
  log : List Completion
deriving DecidableEq, Repr

/-- State at program start: both arrays zero, counters zero (lines 76-81). -/
def init (cfg : Cfg) : State where
  bitbuffer := List.replicate cfg.BUFFER_SIZE 0
  bitbuffer_old := List.replicate cfg.BUFFER_SIZE 0
  bitcounter := 0
  buffercounter := 0
  output_ready := 0
  hashed := []
  appended := []
  sink := []
  log := []

/-- Lines 367-381: one pair of bits `j`, `j+1` of the sample `b`. -/
def debias (s : State) (b j : Nat) : State :=
  let ch := (b >>> j) &&& 0x01
  let ch2 := (b >>> (j + 1)) &&& 0x01
  if ch ≠ ch2 then
    { s with
      bitbuffer :=
        if ch ≠ 0 then
          s.bitbuffer.set s.buffercounter
            ((s.bitbuffer.getD s.buffercounter 0 ||| (1 <<< s.bitcounter)) % 256)
        else s.bitbuffer
      bitcounter := (s.bitcounter + 1) % 4294967296
      appended := s.appended ++ [ch] }
  else
    { s with hashed := s.hashed ++ [if ch ≠ 0 then 1 else 0] }

/-- Lines 384-387: "is byte full?". -/
def byteFull (s : State) : State :=
  if 8 ≤ s.bitcounter then
    { s with buffercounter := (s.buffercounter + 1) % 4294967296, bitcounter := 0 }
  else s

/-- Line 413-415: `bitbuffer[i] = bitbuffer[i] ^ bitbuffer_old[i]` for every index. -/
def xorBuffers (a b : List Nat) : List Nat :=
  List.zipWith (fun x y => x ^^^ y) a b

/-- Lines 395-423: the conditioner, run on a block that passed the FIPS tests. -/
def conditioner (cfg : Cfg) (s : State) : State :=
  let s1 : State :=
    if cfg.gflags_encryption ≠ 0 then
      if cfg.hash_loop s.hashed then
        { s with sink := s.sink ++ [cfg.aes_encrypt s.hashed s.bitbuffer] }
      else s
    else
      let s2 : State :=
        { s with
          bitbuffer := xorBuffers s.bitbuffer s.bitbuffer_old
          buffercounter := cfg.BUFFER_SIZE }
      let s3 : State :=
        if s2.output_ready ≠ 0 then { s2 with sink := s2.sink ++ [s2.bitbuffer_old] }
        else s2
      { s3 with bitbuffer_old := s3.bitbuffer }
  { s1 with output_ready := 1 }

/-- Lines 390-436: "is buffer full?". Returns the state and the value of the
loop variable `j`, which the failure branch uses as its own counter. -/
def bufferFull (cfg : Cfg) (s : State) (j : Nat) : State × Nat :=
  if cfg.BUFFER_SIZE ≤ s.buffercounter then
    let fips_result := cfg.fips_run_rng_test (s.log.map Completion.block) s.bitbuffer
    let r : State × Nat :=
      if fips_result = 0 then (conditioner cfg s, j) else (s, N_FIPS_TESTS)
    ({ r.1 with
        bitbuffer := List.replicate cfg.BUFFER_SIZE 0
        buffercounter := 0
        log := s.log ++ [{ block := s.bitbuffer, fips_result := fips_result,
                           written := r.1.sink.drop s.sink.length }] }, r.2)
  else (s, j)

/-- Body of the loop over `j` (lines 367-436). -/
def pairBody (cfg : Cfg) (s : State) (b j : Nat) : State × Nat :=
  bufferFull cfg (byteFull (debias s b j)) j

/-- The loop `for (j = 0; j < 6; j += 2)` entered with the given `j`; the first
argument bounds the number of iterations. -/
def pairLoop (cfg : Cfg) : Nat → State → Nat → Nat → State
  | 0, s, _, _ => s
  | fuel + 1, s, b, j =>
    if j < 6 then
      let r := pairBody cfg s b j
      pairLoop cfg fuel r.1 b (r.2 + 2)
    else s

/-- One sample byte: the loop over `j` from 0; three iterations always suffice
(`sampleStep_total`). -/
def sampleStep (cfg : Cfg) (s : State) (b : Nat) : State :=
  pairLoop cfg 3 s b 0

/-- The loop over `i` (line 365) on the samples read. -/
def processBuffer (cfg : Cfg) (s : State) (buffer : List Nat) : State :=
  buffer.foldl (sampleStep cfg) s

/-- Lines 362-438: what one iteration of the main loop does with a full read. -/
def chunkStep (cfg : Cfg) (s : State) (buffer : List Nat) : State :=
  processBuffer cfg { s with output_ready := 0 } buffer

/-- A run of the pipeline over successive chunks. -/
def run (cfg : Cfg) (s : State) (chunks : List (List Nat)) : State :=
  chunks.foldl (chunkStep cfg) s

/-- What the environment hands to one iteration of the main loop: the signal
delivered since the loop condition was last evaluated (the last one, if several),
and the outcome of `rtlsdr_read_sync`. -/
structure Input where
  sig : Option Int
  r : Int
  n_read : Nat
  buffer : List Nat

/-- Calls made on the `output` stream by the main loop itself. -/
inductive SinkOp where
  | fclose
  | fopen
deriving DecidableEq, Repr

/-- How `main` ends once the loop is left: it returns a value, or it calls
`fclose` on a stream that is already closed, after which the C standard
promises nothing. -/
inductive Exit where
  | returned (code : Int)
  | undefined
deriving DecidableEq, Repr

/-- State of the driver: the pipeline, the flag `do_exit`, the calls on
`output`, and how `main` ended once the loop has been left. -/
structure Driver where
  pipe : State
  do_exit : Int
  ops : List SinkOp
  exit_code : Option Exit
deriving DecidableEq, Repr

/-- Driver at the first evaluation of the loop condition (line 326). -/
def Driver.start (cfg : Cfg) : Driver where
  pipe := init cfg
  do_exit := 0
  ops := []
  exit_code := none

/-- Lines 440-449: after the loop, `fclose(output)` and `return 0`, with
`output` still open. -/
def finish (d : Driver) : Driver :=
  { d with ops := d.ops ++ [SinkOp.fclose], exit_code := some (Exit.returned 0) }

/-- Lines 329, 335 and 448 outside daemon mode: `fclose(output)`, `break`, and
`fclose(output)` a second time on the stream just closed. -/
def finishClosed (d : Driver) : Driver :=
  { d with ops := d.ops ++ [SinkOp.fclose, SinkOp.fclose], exit_code := some Exit.undefined }

/-- Lines 326-438: the loop condition and one iteration of the main loop.
Outside daemon mode the SIGPIPE branch closes `output` and leaves the loop for a
second `fclose` of the same stream (`finishClosed`). -/
def driverIter (cfg : Cfg) (d : Driver) (inp : Input) : Driver :=
  match d.exit_code with
  | some _ => d
  | none =>
    let d0 : Driver :=
      { d with do_exit := match inp.sig with
                          | some n => n
                          | none => d.do_exit }
    if d0.do_exit = 0 ∨ d0.do_exit = SIGPIPE then
      if d0.do_exit = SIGPIPE ∧ cfg.gflags_detach = 0 then
        finishClosed d0
      else
        let d1 : Driver :=
          if d0.do_exit = SIGPIPE then
            { d0 with ops := d0.ops ++ [SinkOp.fclose, SinkOp.fopen] }
          else d0
        if inp.r < 0 then finish d1
        else if inp.n_read < cfg.out_block_size then finish d1
        else { d1 with pipe := chunkStep cfg d1.pipe (inp.buffer.take inp.n_read) }
    else finish d0

/-- The main loop over the successive inputs of the environment. -/
def driverRun (cfg : Cfg) (d : Driver) (inputs : List Input) : Driver :=
  inputs.foldl (driverIter cfg) d

/-- Bytewise XOR of a list of blocks of `n` bytes, from the zero block. -/
def xorAll (n : Nat) (blocks : List (List Nat)) : List Nat :=
  blocks.foldl (fun acc blk => xorBuffers blk acc) (List.replicate n 0)

/-- The blocks of the log that passed the FIPS tests, in order. -/
def accepted (log : List Completion) : List (List Nat) :=
  (log.filter (fun c => c.fips_result = 0)).map Completion.block

/-- What holds of the XOR conditioner along every run: `bitbuffer_old` is the
XOR of the accepted blocks, `output_ready` is set only after an acceptance, the
sink is empty before the second acceptance, and a completion that wrote
something is an acceptance that is not the first and wrote the XOR of the
blocks accepted before it. -/
def XorInv (cfg : Cfg) (s : State) : Prop :=
  s.bitbuffer_old = xorAll cfg.BUFFER_SIZE (accepted s.log) ∧
  (s.output_ready ≠ 0 → accepted s.log ≠ []) ∧
  (s.sink ≠ [] → 2 ≤ (accepted s.log).length) ∧
  ∀ i c, s.log[i]? = some c → c.written = [] ∨
    (c.fips_result = 0 ∧ accepted (s.log.take i) ≠ [] ∧
      c.written = [xorAll cfg.BUFFER_SIZE (accepted (s.log.take i))])

/-- LSB-first packing in the words of the specification: bit `k` of byte `j` of
`buf` is the `(8j+k)`-th bit of `xs`, and every other bit of `buf` is 0. -/
def PackedLSB (buf : List Nat) (xs : List Nat) : Prop :=
  ∀ j k, (buf.getD j 0).testBit k = true ↔ (k < 8 ∧ xs[8 * j + k]? = some 1)

/-- What holds of the accumulator along a run started in `s0` with the
accumulator empty, `xs` being the bits appended since: before the block is
full, no block has been completed, the counters give the number of bits and
`bitbuffer` packs them; afterwards, the first block completed packs the first
`8 * BUFFER_SIZE` of them. -/
def PackInv (cfg : Cfg) (s0 s : State) : Prop :=
  ∃ xs, s.appended = s0.appended ++ xs ∧ (∀ x ∈ xs, x = 0 ∨ x = 1) ∧
    (xs.length < 8 * cfg.BUFFER_SIZE →
      s.buffercounter = xs.length / 8 ∧ s.bitcounter = xs.length % 8 ∧
      s.bitbuffer.length = cfg.BUFFER_SIZE ∧ PackedLSB s.bitbuffer xs ∧ s.log = s0.log) ∧
    (8 * cfg.BUFFER_SIZE ≤ xs.length →
      ∃ c rest, s.log = s0.log ++ c :: rest ∧
        PackedLSB c.block (xs.take (8 * cfg.BUFFER_SIZE)))

/-- Debiased bits of a sample in the words of the specification: `bit(b,2k)`
for the `k` in 0, 1, 2 with `bit(b,2k) ≠ bit(b,2k+1)`, in ascending `k`. -/
def vnOutput (b : Nat) : List Nat :=
  [0, 1, 2].filterMap fun k =>
    if b.testBit (2 * k) ≠ b.testBit (2 * k + 1) then some (b.testBit (2 * k)).toNat else none

/-- Rejected bits of a sample in the words of the specification: `bit(b,2k)`
for the `k` in 0, 1, 2 with `bit(b,2k) = bit(b,2k+1)`, in ascending `k`. -/
def vnRejected (b : Nat) : List Nat :=
  [0, 1, 2].filterMap fun k =>
    if b.testBit (2 * k) = b.testBit (2 * k + 1) then some (b.testBit (2 * k)).toNat else none

/-- Example configuration: XOR mode, every block passes the FIPS tests. -/
def cfgXor (n : Nat) : Cfg where
  BUFFER_SIZE := n
  out_block_size := 4
  gflags_encryption := 0
  gflags_detach := 0
  fips_run_rng_test := fun _ _ => 0
  hash_loop := fun h => decide (8 * n ≤ h.length)
  aes_encrypt := fun _ blk => blk

/-- Example configuration: XOR mode, a block of zero bytes fails the monobit
test (mask 1), every other block passes. -/
def cfgMonobit (n : Nat) : Cfg where
  BUFFER_SIZE := n
  out_block_size := 4
  gflags_encryption := 0
  gflags_detach := 0
  fips_run_rng_test := fun _ blk => if blk.all (fun x => x == 0) then 1 else 0
  hash_loop := fun h => decide (8 * n ≤ h.length)
  aes_encrypt := fun _ blk => blk

/-- Example configuration: encryption mode, every block passes the FIPS tests. -/
def cfgAes (n : Nat) : Cfg where
  BUFFER_SIZE := n
  out_block_size := 4
  gflags_encryption := 1
  gflags_detach := 0
  fips_run_rng_test := fun _ _ => 0
  hash_loop := fun h => decide (8 * n ≤ h.length)
  aes_encrypt := fun _ blk => blk ++ [16]

/-- Example configuration: daemon mode (`-b`), XOR mode. -/
def cfgDaemon (n : Nat) : Cfg where
  BUFFER_SIZE := n
  out_block_size := 4
  gflags_encryption := 0
  gflags_detach := 1
  fips_run_rng_test := fun _ _ => 0
  hash_loop := fun h => decide (8 * n ≤ h.length)
  aes_encrypt := fun _ blk => blk

/-- Pipeline state in which the current block lacks `free` bits (at most 8):
`buffercounter` on the last byte, `bitcounter = 8 - free`, the given arrays. -/
def nearlyFull (cfg : Cfg) (buf old : List Nat) (free : Nat) (ready : Int) : State where
  bitbuffer := buf
  bitbuffer_old := old
  bitcounter := 8 - free
  buffercounter := cfg.BUFFER_SIZE - 1
  output_ready := ready
  hashed := []
  appended := []
  sink := []
  log := []

/-- Pipeline state in which "is byte full?" has just completed the block `blk`:
`buffercounter = BUFFER_SIZE`, `bitcounter = 0`. -/
def blockReady (cfg : Cfg) (blk old : List Nat) (ready : Int) : State where
  bitbuffer := blk
  bitbuffer_old := old
  bitcounter := 0
  buffercounter := cfg.BUFFER_SIZE
  output_ready := ready
  hashed := []
  appended := []
  sink := []
  log := []

/-- A full read of four samples without a signal. -/
def fullRead (buffer : List Nat) : Input where
  sig := none
  r := 0
  n_read := 4
  buffer := buffer

/-! ## Fields left alone by the parts of the loop body -/

theorem debias_sink (s : State) (b j : Nat) : (debias s b j).sink = s.sink := by
  unfold debias; simp only []; split <;> rfl

theorem debias_bitbuffer_old (s : State) (b j : Nat) :
    (debias s b j).bitbuffer_old = s.bitbuffer_old := by
  unfold debias; simp only []; split <;> rfl

theorem debias_log (s : State) (b j : Nat) : (debias s b j).log = s.log := by
  unfold debias; simp only []; split <;> rfl

theorem debias_output_ready (s : State) (b j : Nat) :
    (debias s b j).output_ready = s.output_ready := by
  unfold debias; simp only []; split <;> rfl

theorem debias_buffercounter (s : State) (b j : Nat) :
    (debias s b j).buffercounter = s.buffercounter := by
  unfold debias; simp only []; split <;> rfl

theorem byteFull_sink (s : State) : (byteFull s).sink = s.sink := by
  unfold byteFull; split <;> rfl

theorem byteFull_bitbuffer_old (s : State) : (byteFull s).bitbuffer_old = s.bitbuffer_old := by
  unfold byteFull; split <;> rfl

theorem byteFull_bitbuffer (s : State) : (byteFull s).bitbuffer = s.bitbuffer := by
  unfold byteFull; split <;> rfl

theorem byteFull_log (s : State) : (byteFull s).log = s.log := by
  unfold byteFull; split <;> rfl

theorem byteFull_output_ready (s : State) : (byteFull s).output_ready = s.output_ready := by
  unfold byteFull; split <;> rfl

theorem byteFull_hashed (s : State) : (byteFull s).hashed = s.hashed := by
  unfold byteFull; split <;> rfl

theorem byteFull_appended (s : State) : (byteFull s).appended = s.appended := by
  unfold byteFull; split <;> rfl

/-- When "is byte full?" moves `buffercounter` past a value it was below, it has
just zeroed `bitcounter`. -/
theorem byteFull_bitcounter_of_lt (s : State) (n : Nat) (h : s.buffercounter < n)
    (hfull : n ≤ (byteFull s).buffercounter) : (byteFull s).bitcounter = 0 := by
  unfold byteFull at hfull ⊢
  split
  · rfl
  · rename_i h8
    rw [if_neg h8] at hfull
    omega

/-! ## Block completion: FIPS failure and warm-up -/

/-- In encryption mode with `hash_loop` false the conditioner only sets
`output_ready`. -/
theorem conditioner_warmup (cfg : Cfg) (s : State) (henc : cfg.gflags_encryption ≠ 0)
    (hloop : cfg.hash_loop s.hashed = false) :
    conditioner cfg s = { s with output_ready := 1 } := by
  unfold conditioner
  simp [henc, hloop]

/-- C2: in either conditioner mode, when the pair being processed completes a
block (the state before it indexes inside the array) and the FIPS mask of the
block is nonzero, the iteration writes nothing to the sink, leaves
`bitbuffer_old` as it was, and ends with `bitbuffer` all zeros,
`buffercounter = 0` and `bitcounter = 0`. -/
theorem fips_failure_discards_block (cfg : Cfg) (s : State) (b j : Nat)
    (hbc : s.buffercounter < cfg.BUFFER_SIZE)
    (hfull : cfg.BUFFER_SIZE ≤ (byteFull (debias s b j)).buffercounter)
    (hfail : cfg.fips_run_rng_test ((byteFull (debias s b j)).log.map Completion.block)
      (byteFull (debias s b j)).bitbuffer ≠ 0) :
    (pairBody cfg s b j).1.sink = s.sink ∧
    (pairBody cfg s b j).1.bitbuffer_old = s.bitbuffer_old ∧
    (pairBody cfg s b j).1.bitbuffer = List.replicate cfg.BUFFER_SIZE 0 ∧
    (pairBody cfg s b j).1.buffercounter = 0 ∧
    (pairBody cfg s b j).1.bitcounter = 0 := by
  have hbit : (byteFull (debias s b j)).bitcounter = 0 :=
    byteFull_bitcounter_of_lt _ _ (by rw [debias_buffercounter]; exact hbc) hfull
  unfold pairBody bufferFull
  rw [if_pos hfull]
  simp only [if_neg hfail, byteFull_sink, debias_sink, byteFull_bitbuffer_old,
    debias_bitbuffer_old, hbit, and_self]

/-- Instance of C2: with one-byte blocks, the eighth zero bit completes the block
`[0]`, which fails the monobit test. -/
theorem fips_failure_discards_block_witness :
    (pairBody (cfgMonobit 1) (nearlyFull (cfgMonobit 1) [0] [77] 1 1) 0x2A 0).1.sink = [] ∧
    (pairBody (cfgMonobit 1) (nearlyFull (cfgMonobit 1) [0] [77] 1 1) 0x2A 0).1.bitbuffer_old
      = [77] ∧
    (pairBody (cfgMonobit 1) (nearlyFull (cfgMonobit 1) [0] [77] 1 1) 0x2A 0).1.bitbuffer
      = [0] ∧
    (pairBody (cfgMonobit 1) (nearlyFull (cfgMonobit 1) [0] [77] 1 1) 0x2A 0).1.buffercounter
      = 0 ∧
    (pairBody (cfgMonobit 1) (nearlyFull (cfgMonobit 1) [0] [77] 1 1) 0x2A 0).1.bitcounter
      = 0 :=
  fips_failure_discards_block (cfgMonobit 1) (nearlyFull (cfgMonobit 1) [0] [77] 1 1) 0x2A 0
    (by decide) (by decide) (by decide)

/-- C7: in encryption mode, when the pair being processed completes a block
while `hash_loop` is false, nothing is written to the sink whatever the FIPS
mask, and the iteration ends with `bitbuffer` all zeros, `buffercounter = 0` and
`bitcounter = 0`, as after every completed block. -/
theorem encryption_warmup_drops_block (cfg : Cfg) (s : State) (b j : Nat)
    (henc : cfg.gflags_encryption ≠ 0)
    (hbc : s.buffercounter < cfg.BUFFER_SIZE)
    (hfull : cfg.BUFFER_SIZE ≤ (byteFull (debias s b j)).buffercounter)
    (hloop : cfg.hash_loop (byteFull (debias s b j)).hashed = false) :
    (pairBody cfg s b j).1.sink = s.sink ∧
    (pairBody cfg s b j).1.bitbuffer = List.replicate cfg.BUFFER_SIZE 0 ∧
    (pairBody cfg s b j).1.buffercounter = 0 ∧
    (pairBody cfg s b j).1.bitcounter = 0 ∧
    (pairBody cfg s b j).1.bitbuffer_old = s.bitbuffer_old := by
  have hbit : (byteFull (debias s b j)).bitcounter = 0 :=
    byteFull_bitcounter_of_lt _ _ (by rw [debias_buffercounter]; exact hbc) hfull
  unfold pairBody bufferFull
  rw [if_pos hfull]
  by_cases hres : cfg.fips_run_rng_test ((byteFull (debias s b j)).log.map Completion.block)
      (byteFull (debias s b j)).bitbuffer = 0
  · simp only [if_pos hres, conditioner_warmup cfg _ henc hloop, byteFull_sink, debias_sink,
      byteFull_bitbuffer_old, debias_bitbuffer_old, hbit, and_self]
  · simp only [if_neg hres, byteFull_sink, debias_sink, byteFull_bitbuffer_old,
      debias_bitbuffer_old, hbit, and_self]

/-- Instance of C7: one-byte blocks, encryption mode, no `store_hash_data` call
so far; the completed block `[255]` passes the FIPS tests and is dropped. -/
theorem encryption_warmup_drops_block_witness :
    (pairBody (cfgAes 1) (nearlyFull (cfgAes 1) [127] [0] 1 0) 0x15 0).1.sink = [] ∧
    (pairBody (cfgAes 1) (nearlyFull (cfgAes 1) [127] [0] 1 0) 0x15 0).1.bitbuffer = [0] ∧
    (pairBody (cfgAes 1) (nearlyFull (cfgAes 1) [127] [0] 1 0) 0x15 0).1.buffercounter = 0 ∧
    (pairBody (cfgAes 1) (nearlyFull (cfgAes 1) [127] [0] 1 0) 0x15 0).1.bitcounter = 0 ∧
    (pairBody (cfgAes 1) (nearlyFull (cfgAes 1) [127] [0] 1 0) 0x15 0).1.bitbuffer_old = [0] :=
  encryption_warmup_drops_block (cfgAes 1) (nearlyFull (cfgAes 1) [127] [0] 1 0) 0x15 0
    (by decide) (by decide) (by decide) (by decide)

/-! ## The block-completion step, case by case -/

theorem bufferFull_of_lt (cfg : Cfg) (s : State) (j : Nat)
    (h : s.buffercounter < cfg.BUFFER_SIZE) : bufferFull cfg s j = (s, j) := by
  unfold bufferFull
  rw [if_neg (by omega)]

theorem bufferFull_reject (cfg : Cfg) (s : State) (j : Nat)
    (hfull : cfg.BUFFER_SIZE ≤ s.buffercounter)
    (hres : cfg.fips_run_rng_test (s.log.map Completion.block) s.bitbuffer ≠ 0) :
    bufferFull cfg s j =
      ({ s with
          bitbuffer := List.replicate cfg.BUFFER_SIZE 0
          buffercounter := 0
          log := s.log ++ [{ block := s.bitbuffer,
                             fips_result := cfg.fips_run_rng_test (s.log.map Completion.block)
                               s.bitbuffer,
                             written := [] }] }, N_FIPS_TESTS) := by
  unfold bufferFull
  rw [if_pos hfull]
  simp only [if_neg hres, List.drop_length]

theorem bufferFull_xor_accept (cfg : Cfg) (s : State) (j : Nat)
    (hxor : cfg.gflags_encryption = 0)
    (hfull : cfg.BUFFER_SIZE ≤ s.buffercounter)
    (hres : cfg.fips_run_rng_test (s.log.map Completion.block) s.bitbuffer = 0) :
    bufferFull cfg s j =
      ({ s with
          bitbuffer := List.replicate cfg.BUFFER_SIZE 0
          bitbuffer_old := xorBuffers s.bitbuffer s.bitbuffer_old
          buffercounter := 0
          output_ready := 1
          sink := s.sink ++ (if s.output_ready ≠ 0 then [s.bitbuffer_old] else [])
          log := s.log ++ [{ block := s.bitbuffer, fips_result := 0,
                             written := if s.output_ready ≠ 0 then [s.bitbuffer_old] else [] }] },
        j) := by
  unfold bufferFull
  rw [if_pos hfull]
  simp only [if_pos hres, conditioner, hxor, ne_eq, not_true_eq_false, if_false]
  by_cases hr : s.output_ready = 0
  · simp [hr, hres]
  · simp [hr, hres]

theorem bufferFull_enc_accept (cfg : Cfg) (s : State) (j : Nat)
    (henc : cfg.gflags_encryption ≠ 0)
    (hfull : cfg.BUFFER_SIZE ≤ s.buffercounter)
    (hres : cfg.fips_run_rng_test (s.log.map Completion.block) s.bitbuffer = 0) :
    bufferFull cfg s j =
      ({ s with
          bitbuffer := List.replicate cfg.BUFFER_SIZE 0
          buffercounter := 0
          output_ready := 1
          sink := s.sink ++
            (if cfg.hash_loop s.hashed then [cfg.aes_encrypt s.hashed s.bitbuffer] else [])
          log := s.log ++ [{ block := s.bitbuffer, fips_result := 0,
                             written := if cfg.hash_loop s.hashed then
                               [cfg.aes_encrypt s.hashed s.bitbuffer] else [] }] },
        j) := by
  unfold bufferFull
  rw [if_pos hfull]
  simp only [if_pos hres, conditioner, henc, ne_eq, not_false_eq_true, if_true]
  by_cases hl : cfg.hash_loop s.hashed = true
  · simp [hl, hres]
  · simp [hl, hres]

/-! ## Lifting a property of the loop body to the loops -/

theorem pairLoop_invariant (cfg : Cfg) (P : State → Prop)
    (hstep : ∀ s b j, P s → P (pairBody cfg s b j).1) :
    ∀ fuel s b j, P s → P (pairLoop cfg fuel s b j) := by
  intro fuel
  induction fuel with
  | zero => intro s b j h; exact h
  | succ n ih =>
    intro s b j h
    unfold pairLoop
    split
    · exact ih _ _ _ (hstep s b j h)
    · exact h

theorem processBuffer_invariant (cfg : Cfg) (P : State → Prop)
    (hstep : ∀ s b j, P s → P (pairBody cfg s b j).1) :
    ∀ buffer s, P s → P (processBuffer cfg s buffer) := by
  intro buffer
  induction buffer with
  | nil => intro s h; exact h
  | cons b bs ih =>
    intro s h
    exact ih _ (pairLoop_invariant cfg P hstep 3 s b 0 h)

theorem run_invariant (cfg : Cfg) (P : State → Prop)
    (hstep : ∀ s b j, P s → P (pairBody cfg s b j).1)
    (hreset : ∀ s, P s → P { s with output_ready := 0 }) :
    ∀ chunks s, P s → P (run cfg s chunks) := by
  intro chunks
  induction chunks with
  | nil => intro s h; exact h
  | cons c cs ih =>
    intro s h
    exact ih _ (processBuffer_invariant cfg P hstep c _ (hreset s h))

/-! ## XOR mode: the running XOR kept in `bitbuffer_old` -/

theorem accepted_append (log : List Completion) (c : Completion) :
    accepted (log ++ [c]) = accepted log ++ (if c.fips_result = 0 then [c.block] else []) := by
  unfold accepted
  by_cases h : c.fips_result = 0
  · simp [List.filter_append, h]
  · simp [List.filter_append, h]

theorem xorAll_append (n : Nat) (blocks : List (List Nat)) (blk : List Nat) :
    xorAll n (blocks ++ [blk]) = xorBuffers blk (xorAll n blocks) := by
  unfold xorAll
  simp [List.foldl_append]

theorem getElem?_append_singleton {α : Type} (l : List α) (c c' : α) (i : Nat)
    (h : (l ++ [c])[i]? = some c') :
    (i < l.length ∧ l[i]? = some c') ∨ (i = l.length ∧ c' = c) := by
  by_cases hi : i < l.length
  · left
    rw [List.getElem?_append_left hi] at h
    exact ⟨hi, h⟩
  · right
    have hle : l.length ≤ i := by omega
    rw [List.getElem?_append_right hle] at h
    by_cases h0 : i - l.length = 0
    · rw [h0] at h
      simp at h
      exact ⟨by omega, h.symm⟩
    · obtain ⟨k, hk⟩ : ∃ k, i - l.length = k + 1 := ⟨i - l.length - 1, by omega⟩
      rw [hk] at h
      simp at h

theorem XorInv_init (cfg : Cfg) : XorInv cfg (init cfg) := by
  refine ⟨rfl, ?_, ?_, ?_⟩
  · intro h; exact absurd rfl h
  · intro h; exact absurd rfl h
  · intro i c h
    simp [init] at h

theorem XorInv_reset (cfg : Cfg) (s : State) (h : XorInv cfg s) :
    XorInv cfg { s with output_ready := 0 } := by
  obtain ⟨h1, _, h3, h4⟩ := h
  exact ⟨h1, fun h => absurd rfl h, h3, h4⟩

theorem written_ok_append (n : Nat) (log : List Completion) (c : Completion)
    (h4 : ∀ i c', log[i]? = some c' → c'.written = [] ∨
      (c'.fips_result = 0 ∧ accepted (log.take i) ≠ [] ∧
        c'.written = [xorAll n (accepted (log.take i))]))
    (hc : c.written = [] ∨
      (c.fips_result = 0 ∧ accepted log ≠ [] ∧ c.written = [xorAll n (accepted log)])) :
    ∀ i c', (log ++ [c])[i]? = some c' → c'.written = [] ∨
      (c'.fips_result = 0 ∧ accepted ((log ++ [c]).take i) ≠ [] ∧
        c'.written = [xorAll n (accepted ((log ++ [c]).take i))]) := by
  intro i c' hget
  rcases getElem?_append_singleton _ _ _ _ hget with ⟨hi, hci⟩ | ⟨hi, hci⟩
  · rw [List.take_append_of_le_length (by omega)]
    exact h4 i c' hci
  · subst hci
    rw [hi, List.take_left]
    exact hc

theorem XorInv_pairBody (cfg : Cfg) (hxor : cfg.gflags_encryption = 0) (s : State) (b j : Nat)
    (h : XorInv cfg s) : XorInv cfg (pairBody cfg s b j).1 := by
  have ht : XorInv cfg (byteFull (debias s b j)) := by
    unfold XorInv at h ⊢
    rw [byteFull_bitbuffer_old, debias_bitbuffer_old, byteFull_log, debias_log,
      byteFull_output_ready, debias_output_ready, byteFull_sink, debias_sink]
    exact h
  unfold pairBody
  generalize byteFull (debias s b j) = t at ht
  obtain ⟨h1, h2, h3, h4⟩ := ht
  by_cases hfull : cfg.BUFFER_SIZE ≤ t.buffercounter
  · by_cases hres : cfg.fips_run_rng_test (t.log.map Completion.block) t.bitbuffer = 0
    · rw [bufferFull_xor_accept cfg t j hxor hfull hres]
      refine ⟨?_, ?_, ?_, ?_⟩
      · show xorBuffers t.bitbuffer t.bitbuffer_old = _
        rw [accepted_append]
        simp only [if_true]
        rw [xorAll_append, h1]
      · intro _
        show accepted (t.log ++ _) ≠ []
        rw [accepted_append]
        simp
      · intro hs
        show 2 ≤ (accepted (t.log ++ _)).length
        rw [accepted_append]
        simp only [if_true, List.length_append, List.length_singleton]
        have hs' : t.sink ++ (if t.output_ready ≠ 0 then [t.bitbuffer_old] else []) ≠ [] := hs
        by_cases hr : t.output_ready = 0
        · simp [hr] at hs'
          have := h3 hs'
          omega
        · have := h2 hr
          have : 0 < (accepted t.log).length := List.length_pos.mpr this
          omega
      · apply written_ok_append _ _ _ h4
        by_cases hr : t.output_ready = 0
        · left; simp [hr]
        · right
          refine ⟨rfl, h2 hr, ?_⟩
          simp [hr, h1]
    · rw [bufferFull_reject cfg t j hfull hres]
      refine ⟨?_, ?_, ?_, ?_⟩
      · show t.bitbuffer_old = xorAll cfg.BUFFER_SIZE (accepted (t.log ++ _))
        rw [accepted_append]
        simp [hres, h1]
      · intro hr
        show accepted (t.log ++ _) ≠ []
        rw [accepted_append]
        simp only [hres, if_false, List.append_nil]
        exact h2 hr
      · intro hs
        show 2 ≤ (accepted (t.log ++ _)).length
        rw [accepted_append]
        simp only [hres, if_false, List.append_nil]
        exact h3 hs
      · apply written_ok_append _ _ _ h4
        left; rfl
  · rw [bufferFull_of_lt cfg t j (by omega)]
    exact ⟨h1, h2, h3, h4⟩

/-- In XOR mode the invariant holds after every run from the initial state. -/
theorem XorInv_run (cfg : Cfg) (hxor : cfg.gflags_encryption = 0) (chunks : List (List Nat)) :
    XorInv cfg (run cfg (init cfg) chunks) :=
  run_invariant cfg (XorInv cfg) (fun s b j h => XorInv_pairBody cfg hxor s b j h)
    (XorInv_reset cfg) chunks (init cfg) (XorInv_init cfg)

/-! ## XOR mode: what a chunk writes -/

theorem chunk_first_acceptance_silent (cfg : Cfg) (hxor : cfg.gflags_encryption = 0)
    (s0 : State) (buffer : List Nat) :
    (accepted (chunkStep cfg s0 buffer).log).length ≤ (accepted s0.log).length + 1 →
      (chunkStep cfg s0 buffer).sink = s0.sink := by
  have key : ∀ s,
      ((s.output_ready = 0 → s.sink = s0.sink) ∧
       (s.output_ready ≠ 0 → (accepted s0.log).length + 1 ≤ (accepted s.log).length) ∧
       ((accepted s.log).length ≤ (accepted s0.log).length + 1 → s.sink = s0.sink) ∧
       (accepted s0.log).length ≤ (accepted s.log).length) →
      ((processBuffer cfg s buffer).output_ready = 0 →
          (processBuffer cfg s buffer).sink = s0.sink) ∧
       ((processBuffer cfg s buffer).output_ready ≠ 0 →
          (accepted s0.log).length + 1 ≤ (accepted (processBuffer cfg s buffer).log).length) ∧
       ((accepted (processBuffer cfg s buffer).log).length ≤ (accepted s0.log).length + 1 →
          (processBuffer cfg s buffer).sink = s0.sink) ∧
       (accepted s0.log).length ≤ (accepted (processBuffer cfg s buffer).log).length := by
    intro s hs
    refine processBuffer_invariant cfg (fun s =>
      (s.output_ready = 0 → s.sink = s0.sink) ∧
       (s.output_ready ≠ 0 → (accepted s0.log).length + 1 ≤ (accepted s.log).length) ∧
       ((accepted s.log).length ≤ (accepted s0.log).length + 1 → s.sink = s0.sink) ∧
       (accepted s0.log).length ≤ (accepted s.log).length) ?_ buffer s hs
    intro s b j h
    have ht : (byteFull (debias s b j)).output_ready = s.output_ready ∧
        (byteFull (debias s b j)).sink = s.sink ∧ (byteFull (debias s b j)).log = s.log :=
      ⟨by rw [byteFull_output_ready, debias_output_ready],
       by rw [byteFull_sink, debias_sink], by rw [byteFull_log, debias_log]⟩
    unfold pairBody
    generalize byteFull (debias s b j) = t at ht
    obtain ⟨e1, e2, e3⟩ := ht
    rw [← e1, ← e2, ← e3] at h
    obtain ⟨k1, k2, k3, k4⟩ := h
    by_cases hfull : cfg.BUFFER_SIZE ≤ t.buffercounter
    · by_cases hres : cfg.fips_run_rng_test (t.log.map Completion.block) t.bitbuffer = 0
      · rw [bufferFull_xor_accept cfg t j hxor hfull hres]
        dsimp only
        rw [accepted_append]
        simp only [if_true, List.length_append, List.length_singleton]
        refine ⟨?_, ?_, ?_, ?_⟩
        · intro h1
          exact absurd h1 (by decide)
        · intro _
          omega
        · intro hle
          by_cases hr : t.output_ready = 0
          · simp [hr, k1 hr]
          · have := k2 hr
            omega
        · omega
      · rw [bufferFull_reject cfg t j hfull hres]
        dsimp only
        rw [accepted_append]
        simp only [hres, if_false, List.append_nil]
        exact ⟨k1, k2, k3, k4⟩
    · rw [bufferFull_of_lt cfg t j (by omega)]
      exact ⟨k1, k2, k3, k4⟩
  intro hle
  have := key { s0 with output_ready := 0 }
    ⟨fun _ => rfl, fun h => absurd rfl h, fun _ => rfl, le_refl _⟩
  exact this.2.2.1 hle

theorem xorBuffers_replicate (n a b : Nat) :
    xorBuffers (List.replicate n a) (List.replicate n b) = List.replicate n (a ^^^ b) := by
  unfold xorBuffers
  simp [List.zipWith_replicate]

/-- C6: in XOR mode, after any run from the initial state during which fewer
than two blocks passed the FIPS tests, nothing has been written to the sink. -/
theorem xor_mode_silent_before_second_acceptance (cfg : Cfg)
    (hxor : cfg.gflags_encryption = 0) (chunks : List (List Nat))
    (hfew : (accepted (run cfg (init cfg) chunks).log).length < 2) :
    (run cfg (init cfg) chunks).sink = [] := by
  have h := (XorInv_run cfg hxor chunks).2.2.1
  by_contra hne
  have := h hne
  omega

/-- Instance of C6: one-byte blocks, two chunks that complete (and have
accepted) one block. -/
theorem xor_mode_silent_before_second_acceptance_witness :
    (accepted (run (cfgXor 1) (init (cfgXor 1)) [[0x2A, 0x3F], [0x15, 0x15]]).log).length = 1 ∧
    (run (cfgXor 1) (init (cfgXor 1)) [[0x2A, 0x3F], [0x15, 0x15]]).sink = [] :=
  ⟨by decide,
   xor_mode_silent_before_second_acceptance (cfgXor 1) rfl [[0x2A, 0x3F], [0x15, 0x15]]
     (by decide)⟩

/-- C10: in XOR mode, after any run from the initial state, `bitbuffer_old` is
the bytewise XOR of all blocks accepted so far (all zeros when there is none;
failed blocks do not enter), and a completion that wrote to the sink wrote one
block, the XOR of the blocks accepted before it, in which the block just
accepted does not occur. -/
theorem xor_mode_running_xor (cfg : Cfg) (hxor : cfg.gflags_encryption = 0)
    (chunks : List (List Nat)) :
    (run cfg (init cfg) chunks).bitbuffer_old
      = xorAll cfg.BUFFER_SIZE (accepted (run cfg (init cfg) chunks).log) ∧
    ∀ i c, (run cfg (init cfg) chunks).log[i]? = some c → c.written ≠ [] →
      c.fips_result = 0 ∧
      c.written = [xorAll cfg.BUFFER_SIZE
        (accepted ((run cfg (init cfg) chunks).log.take i))] := by
  obtain ⟨h1, _, _, h4⟩ := XorInv_run cfg hxor chunks
  refine ⟨h1, ?_⟩
  intro i c hc hw
  rcases h4 i c hc with h | ⟨ha, _, hb⟩
  · exact absurd h hw
  · exact ⟨ha, hb⟩

/-- Instance of C10: one-byte blocks; the blocks `[0x00]`, `[0xFF]`, `[0xA9]` are
accepted within one chunk, `bitbuffer_old` ends as `[0x56]`, and the writes are
`[0x00]` and `[0xFF]`. -/
theorem xor_mode_running_xor_witness :
    (run (cfgXor 1) (init (cfgXor 1))
      [[0x2A, 0x2A, 0x1A, 0x15, 0x15, 0x25, 0x26, 0x19]]).bitbuffer_old = [86] ∧
    accepted (run (cfgXor 1) (init (cfgXor 1))
      [[0x2A, 0x2A, 0x1A, 0x15, 0x15, 0x25, 0x26, 0x19]]).log = [[0], [255], [169]] ∧
    (run (cfgXor 1) (init (cfgXor 1))
      [[0x2A, 0x2A, 0x1A, 0x15, 0x15, 0x25, 0x26, 0x19]]).sink = [[0], [255]] :=
  ⟨(xor_mode_running_xor (cfgXor 1) rfl
      [[0x2A, 0x2A, 0x1A, 0x15, 0x15, 0x25, 0x26, 0x19]]).1.trans (by decide),
   by decide, by decide⟩

/-! ## The driver -/

/-- Outside daemon mode an iteration that finds SIGPIPE closes `output` at line
329 and again at line 448: what `main` does then is not defined. -/
theorem driverIter_sigpipe_no_daemon (cfg : Cfg) (d : Driver) (inp : Input)
    (hrun : d.exit_code = none) (hd : cfg.gflags_detach = 0)
    (hsig : inp.sig = some SIGPIPE) :
    (driverIter cfg d inp).exit_code = some Exit.undefined ∧
    (driverIter cfg d inp).ops = d.ops ++ [SinkOp.fclose, SinkOp.fclose] ∧
    (driverIter cfg d inp).pipe = d.pipe := by
  unfold driverIter
  rw [hrun]
  simp [hsig, hd, finishClosed]

/-- In daemon mode, once `do_exit` holds SIGPIPE, every later iteration without
a new signal and with a full read closes and re-opens the sink again and leaves
SIGPIPE in `do_exit`. -/
theorem driverIter_sigpipe_pending (cfg : Cfg) (d : Driver) (inp : Input)
    (hrun : d.exit_code = none) (hd : cfg.gflags_detach ≠ 0) (hp : d.do_exit = SIGPIPE)
    (hsig : inp.sig = none) (hr : 0 ≤ inp.r) (hn : cfg.out_block_size ≤ inp.n_read) :
    (driverIter cfg d inp).ops = d.ops ++ [SinkOp.fclose, SinkOp.fopen] ∧
    (driverIter cfg d inp).do_exit = SIGPIPE ∧
    (driverIter cfg d inp).exit_code = none ∧
    (driverIter cfg d inp).pipe = chunkStep cfg d.pipe (inp.buffer.take inp.n_read) := by
  unfold driverIter
  rw [hrun]
  simp [hsig, hp, hd, not_lt.mpr hr, not_lt.mpr hn]

set_option maxRecDepth 100000 in
/-- C9, evaluated where it fails. Daemon mode, SIGPIPE found by the first
iteration, then two iterations with full reads and no new signal: the sink is
closed and re-opened in each of the three iterations, `do_exit` still holds
SIGPIPE, and the pipeline state is the one the same reads give without the
signal. -/
theorem sigpipe_reopens_sink_every_iteration :
    (driverRun (cfgDaemon 1) (Driver.start (cfgDaemon 1))
      [⟨some SIGPIPE, 0, 4, [0x2A, 0x15, 0x3F, 0x26]⟩, fullRead [0x15, 0x15, 0x2A, 0x19],
       fullRead [0x26, 0x2A, 0x15, 0x3F]]).ops
      = [SinkOp.fclose, SinkOp.fopen, SinkOp.fclose, SinkOp.fopen, SinkOp.fclose,
         SinkOp.fopen] ∧
    (driverRun (cfgDaemon 1) (Driver.start (cfgDaemon 1))
      [⟨some SIGPIPE, 0, 4, [0x2A, 0x15, 0x3F, 0x26]⟩, fullRead [0x15, 0x15, 0x2A, 0x19],
       fullRead [0x26, 0x2A, 0x15, 0x3F]]).do_exit = SIGPIPE ∧
    (driverRun (cfgDaemon 1) (Driver.start (cfgDaemon 1))
      [⟨some SIGPIPE, 0, 4, [0x2A, 0x15, 0x3F, 0x26]⟩, fullRead [0x15, 0x15, 0x2A, 0x19],
       fullRead [0x26, 0x2A, 0x15, 0x3F]]).exit_code = none ∧
    (driverRun (cfgDaemon 1) (Driver.start (cfgDaemon 1))
      [⟨some SIGPIPE, 0, 4, [0x2A, 0x15, 0x3F, 0x26]⟩, fullRead [0x15, 0x15, 0x2A, 0x19],
       fullRead [0x26, 0x2A, 0x15, 0x3F]]).pipe
      = (driverRun (cfgDaemon 1) (Driver.start (cfgDaemon 1))
          [fullRead [0x2A, 0x15, 0x3F, 0x26], fullRead [0x15, 0x15, 0x2A, 0x19],
           fullRead [0x26, 0x2A, 0x15, 0x3F]]).pipe := by
  decide

/-! ## One sample: the debiased and the rejected bits -/

theorem and_one_eq_toNat_testBit (b j : Nat) : (b >>> j) &&& 1 = (b.testBit j).toNat := by
  rw [Nat.toNat_testBit, Nat.and_one_is_mod, Nat.shiftRight_eq_div_pow]

theorem debias_appended (s : State) (b j : Nat) :
    (debias s b j).appended = s.appended ++
      (if b.testBit j ≠ b.testBit (j + 1) then [(b.testBit j).toNat] else []) := by
  unfold debias
  simp only [and_one_eq_toNat_testBit]
  cases b.testBit j <;> cases b.testBit (j + 1) <;> simp

theorem debias_hashed (s : State) (b j : Nat) :
    (debias s b j).hashed = s.hashed ++
      (if b.testBit j = b.testBit (j + 1) then [(b.testBit j).toNat] else []) := by
  unfold debias
  simp only [and_one_eq_toNat_testBit]
  cases b.testBit j <;> cases b.testBit (j + 1) <;> simp

theorem bufferFull_appended (cfg : Cfg) (s : State) (j : Nat) :
    (bufferFull cfg s j).1.appended = s.appended := by
  unfold bufferFull conditioner
  simp only []
  split_ifs <;> rfl

theorem bufferFull_hashed (cfg : Cfg) (s : State) (j : Nat) :
    (bufferFull cfg s j).1.hashed = s.hashed := by
  unfold bufferFull conditioner
  simp only []
  split_ifs <;> rfl

/-- The bit position `8 * buffercounter + bitcounter` moves up by at most one
where a bit is appended and not at all where a bit is rejected. -/
theorem position_step (s : State) (b j : Nat) :
    8 * (byteFull (debias s b j)).buffercounter + (byteFull (debias s b j)).bitcounter
      ≤ 8 * s.buffercounter + s.bitcounter + 1 := by
  unfold byteFull debias
  dsimp only
  split_ifs <;> dsimp only at * <;> omega

theorem pairBody_of_lt (cfg : Cfg) (s : State) (b j : Nat)
    (h : (byteFull (debias s b j)).buffercounter < cfg.BUFFER_SIZE) :
    pairBody cfg s b j = (byteFull (debias s b j), j) := by
  unfold pairBody
  exact bufferFull_of_lt cfg _ j h

/-- With three free bit positions the three pairs of a sample are processed
one after the other, and only the third can complete the block. -/
theorem sampleStep_of_free (cfg : Cfg) (s : State) (b : Nat)
    (hfree : 8 * s.buffercounter + s.bitcounter + 3 ≤ 8 * cfg.BUFFER_SIZE) :
    sampleStep cfg s b
      = (pairBody cfg (byteFull (debias (byteFull (debias s b 0)) b 2)) b 4).1 := by
  have h0 := position_step s b 0
  have h1 := position_step (byteFull (debias s b 0)) b 2
  unfold sampleStep
  simp only [pairLoop, Nat.lt_add_one, Nat.zero_lt_succ, if_true]
  rw [pairBody_of_lt cfg s b 0 (by omega)]
  simp only [Nat.reduceAdd, Nat.reduceLT, if_true]
  rw [pairBody_of_lt cfg _ b 2 (by omega)]
  simp only [Nat.reduceAdd, Nat.reduceLT, if_true]

theorem testBit_mod_64 (b j : Nat) (hj : j < 6) : (b % 64).testBit j = b.testBit j := by
  have h : (64 : Nat) = 2 ^ 6 := by norm_num
  rw [h, Nat.testBit_mod_two_pow]
  simp [hj]

theorem debias_mod_64 (s : State) (b j : Nat) (hj : j + 1 < 6) :
    debias s (b % 64) j = debias s b j := by
  unfold debias
  simp only [and_one_eq_toNat_testBit, testBit_mod_64 b j (by omega), testBit_mod_64 b (j + 1) hj]

theorem vnOutput_eq (b : Nat) :
    vnOutput b =
      (if b.testBit 0 ≠ b.testBit 1 then [(b.testBit 0).toNat] else []) ++
      ((if b.testBit 2 ≠ b.testBit 3 then [(b.testBit 2).toNat] else []) ++
       (if b.testBit 4 ≠ b.testBit 5 then [(b.testBit 4).toNat] else [])) := by
  unfold vnOutput
  simp only [List.filterMap_cons, List.filterMap_nil, Nat.mul_zero, Nat.mul_one, Nat.zero_add,
    Nat.reduceMul, Nat.reduceAdd]
  generalize b.testBit 0 = t0
  generalize b.testBit 1 = t1
  generalize b.testBit 2 = t2
  generalize b.testBit 3 = t3
  generalize b.testBit 4 = t4
  generalize b.testBit 5 = t5
  revert t0 t1 t2 t3 t4 t5
  decide

theorem vnRejected_eq (b : Nat) :
    vnRejected b =
      (if b.testBit 0 = b.testBit 1 then [(b.testBit 0).toNat] else []) ++
      ((if b.testBit 2 = b.testBit 3 then [(b.testBit 2).toNat] else []) ++
       (if b.testBit 4 = b.testBit 5 then [(b.testBit 4).toNat] else [])) := by
  unfold vnRejected
  simp only [List.filterMap_cons, List.filterMap_nil, Nat.mul_zero, Nat.mul_one, Nat.zero_add,
    Nat.reduceMul, Nat.reduceAdd]
  generalize b.testBit 0 = t0
  generalize b.testBit 1 = t1
  generalize b.testBit 2 = t2
  generalize b.testBit 3 = t3
  generalize b.testBit 4 = t4
  generalize b.testBit 5 = t5
  revert t0 t1 t2 t3 t4 t5
  decide

/-- C3: from any state with at least three free bit positions in the current
block, processing the sample `b` appends to the output accumulator exactly the
bits `bit(b,2k)`, `k = 0, 1, 2`, of the pairs with `bit(b,2k) ≠ bit(b,2k+1)`, in
ascending `k`, pushes to the hash buffer exactly those of the other pairs, and
does the same as for `b` with bits 6 and 7 cleared. -/
theorem sample_debias_bits (cfg : Cfg) (s : State) (b : Nat)
    (hfree : 8 * s.buffercounter + s.bitcounter + 3 ≤ 8 * cfg.BUFFER_SIZE) :
    (sampleStep cfg s b).appended = s.appended ++ vnOutput b ∧
    (sampleStep cfg s b).hashed = s.hashed ++ vnRejected b ∧
    sampleStep cfg s (b % 64) = sampleStep cfg s b := by
  refine ⟨?_, ?_, ?_⟩
  · rw [sampleStep_of_free cfg s b hfree]
    unfold pairBody
    rw [bufferFull_appended, byteFull_appended, debias_appended, byteFull_appended,
      debias_appended, byteFull_appended, debias_appended]
    rw [vnOutput_eq]
    simp only [List.append_assoc, Nat.zero_add, Nat.reduceAdd]
  · rw [sampleStep_of_free cfg s b hfree]
    unfold pairBody
    rw [bufferFull_hashed, byteFull_hashed, debias_hashed, byteFull_hashed,
      debias_hashed, byteFull_hashed, debias_hashed]
    rw [vnRejected_eq]
    simp only [List.append_assoc, Nat.zero_add, Nat.reduceAdd]
  · rw [sampleStep_of_free cfg s b hfree, sampleStep_of_free cfg s (b % 64) hfree]
    unfold pairBody
    rw [debias_mod_64 s b 0 (by omega), debias_mod_64 _ b 2 (by omega),
      debias_mod_64 _ b 4 (by omega)]

/-- Instances of C3 from the initial state with one-byte blocks: `0x2A` appends
0,0,0 and pushes nothing, `0x15` appends 1,1,1 and pushes nothing, `0x3F` appends
nothing and pushes 1,1,1; `0xEA` does the same as `0x2A`. -/
theorem sample_debias_bits_witness :
    ((sampleStep (cfgXor 1) (init (cfgXor 1)) 0x2A).appended = [0, 0, 0] ∧
     (sampleStep (cfgXor 1) (init (cfgXor 1)) 0x2A).hashed = []) ∧
    ((sampleStep (cfgXor 1) (init (cfgXor 1)) 0x15).appended = [1, 1, 1] ∧
     (sampleStep (cfgXor 1) (init (cfgXor 1)) 0x15).hashed = []) ∧
    ((sampleStep (cfgXor 1) (init (cfgXor 1)) 0x3F).appended = [] ∧
     (sampleStep (cfgXor 1) (init (cfgXor 1)) 0x3F).hashed = [1, 1, 1]) ∧
    sampleStep (cfgXor 1) (init (cfgXor 1)) (0xEA % 64)
      = sampleStep (cfgXor 1) (init (cfgXor 1)) 0xEA :=
  ⟨⟨(sample_debias_bits (cfgXor 1) (init (cfgXor 1)) 0x2A (by decide)).1,
    (sample_debias_bits (cfgXor 1) (init (cfgXor 1)) 0x2A (by decide)).2.1⟩,
   ⟨(sample_debias_bits (cfgXor 1) (init (cfgXor 1)) 0x15 (by decide)).1,
    (sample_debias_bits (cfgXor 1) (init (cfgXor 1)) 0x15 (by decide)).2.1⟩,
   ⟨(sample_debias_bits (cfgXor 1) (init (cfgXor 1)) 0x3F (by decide)).1,
    (sample_debias_bits (cfgXor 1) (init (cfgXor 1)) 0x3F (by decide)).2.1⟩,
   (sample_debias_bits (cfgXor 1) (init (cfgXor 1)) 0xEA (by decide)).2.2⟩

/-! ## LSB-first packing of the output bits -/

theorem getElem?_snoc_eq_one (xs : List Nat) (ch i : Nat) :
    (xs ++ [ch])[i]? = some 1 ↔ xs[i]? = some 1 ∨ (i = xs.length ∧ ch = 1) := by
  by_cases hi : i < xs.length
  · rw [List.getElem?_append_left hi]
    constructor
    · intro h; exact Or.inl h
    · rintro (h | ⟨h, _⟩)
      · exact h
      · omega
  · have hle : xs.length ≤ i := by omega
    rw [List.getElem?_append_right hle, List.getElem?_eq_none hle]
    by_cases h0 : i = xs.length
    · subst h0
      simp
    · obtain ⟨k, hk⟩ : ∃ k, i - xs.length = k + 1 := ⟨i - xs.length - 1, by omega⟩
      rw [hk]
      simp [h0]

theorem testBit_store (x k0 k : Nat) :
    ((x ||| (1 <<< k0)) % 256).testBit k = true ↔ (k < 8 ∧ (x.testBit k = true ∨ k = k0)) := by
  have h : (256 : Nat) = 2 ^ 8 := by norm_num
  rw [h, Nat.testBit_mod_two_pow, Nat.testBit_or, Nat.one_shiftLeft, Nat.testBit_two_pow]
  simp only [Bool.and_eq_true, Bool.or_eq_true, decide_eq_true_eq]
  constructor
  · rintro ⟨h1, h2 | h2⟩
    · exact ⟨h1, Or.inl h2⟩
    · exact ⟨h1, Or.inr h2.symm⟩
  · rintro ⟨h1, h2 | h2⟩
    · exact ⟨h1, Or.inl h2⟩
    · exact ⟨h1, Or.inr h2.symm⟩

theorem getD_set (buf : List Nat) (i j v : Nat) (hi : i < buf.length) :
    (buf.set i v).getD j 0 = if j = i then v else buf.getD j 0 := by
  rw [List.getD_eq_getElem?_getD, List.getD_eq_getElem?_getD, List.getElem?_set]
  by_cases h : i = j
  · subst h
    simp [hi]
  · have h' : ¬ j = i := fun e => h e.symm
    simp [h, h']

/-- Storing the next output bit as lines 370-374 do keeps the packing. -/
theorem packed_append (buf xs : List Nat) (ch : Nat) (hp : PackedLSB buf xs)
    (hlen : xs.length < 8 * buf.length) (hch : ch = 0 ∨ ch = 1) :
    PackedLSB
      (if ch ≠ 0 then
        buf.set (xs.length / 8) ((buf.getD (xs.length / 8) 0 ||| (1 <<< (xs.length % 8))) % 256)
       else buf)
      (xs ++ [ch]) := by
  intro j k
  rw [getElem?_snoc_eq_one]
  rcases hch with h0 | h1
  · subst h0
    simp only [ne_eq, not_true_eq_false, if_false]
    rw [hp j k]
    constructor
    · rintro ⟨a, b⟩; exact ⟨a, Or.inl b⟩
    · rintro ⟨a, b | ⟨_, b⟩⟩
      · exact ⟨a, b⟩
      · omega
  · subst h1
    simp only [ne_eq, one_ne_zero, not_false_eq_true, if_true]
    rw [getD_set buf _ j _ (by omega)]
    by_cases hj : j = xs.length / 8
    · rw [if_pos hj, testBit_store, ← hj, hp j k]
      constructor
      · rintro ⟨a, ⟨_, b⟩ | b⟩
        · exact ⟨a, Or.inl b⟩
        · exact ⟨a, Or.inr ⟨by omega, trivial⟩⟩
      · rintro ⟨a, b | ⟨b, _⟩⟩
        · exact ⟨a, Or.inl ⟨a, b⟩⟩
        · exact ⟨a, Or.inr (by omega)⟩
    · rw [if_neg hj, hp j k]
      constructor
      · rintro ⟨a, b⟩; exact ⟨a, Or.inl b⟩
      · rintro ⟨a, b | ⟨b, _⟩⟩
        · exact ⟨a, b⟩
        · omega

theorem debias_of_ne (s : State) (b j : Nat) (h : b.testBit j ≠ b.testBit (j + 1)) :
    debias s b j =
      { s with
        bitbuffer :=
          if (b.testBit j).toNat ≠ 0 then
            s.bitbuffer.set s.buffercounter
              ((s.bitbuffer.getD s.buffercounter 0 ||| (1 <<< s.bitcounter)) % 256)
          else s.bitbuffer
        bitcounter := (s.bitcounter + 1) % 4294967296
        appended := s.appended ++ [(b.testBit j).toNat] } := by
  unfold debias
  simp only [and_one_eq_toNat_testBit]
  revert h
  cases b.testBit j <;> cases b.testBit (j + 1) <;> simp

theorem debias_of_eq (s : State) (b j : Nat) (h : b.testBit j = b.testBit (j + 1)) :
    debias s b j = { s with hashed := s.hashed ++ [(b.testBit j).toNat] } := by
  unfold debias
  simp only [and_one_eq_toNat_testBit]
  revert h
  cases b.testBit j <;> cases b.testBit (j + 1) <;> simp

theorem bufferFull_log_extends (cfg : Cfg) (s : State) (j : Nat) :
    ∃ more, (bufferFull cfg s j).1.log = s.log ++ more := by
  unfold bufferFull
  split
  · exact ⟨_, rfl⟩
  · exact ⟨[], (List.append_nil _).symm⟩

theorem bufferFull_log_of_full (cfg : Cfg) (s : State) (j : Nat)
    (hfull : cfg.BUFFER_SIZE ≤ s.buffercounter) :
    ∃ c, (bufferFull cfg s j).1.log = s.log ++ [c] ∧ c.block = s.bitbuffer := by
  unfold bufferFull
  rw [if_pos hfull]
  exact ⟨_, rfl, rfl⟩

theorem pairBody_log_extends (cfg : Cfg) (s : State) (b j : Nat) :
    ∃ more, (pairBody cfg s b j).1.log = s.log ++ more := by
  obtain ⟨more, h⟩ := bufferFull_log_extends cfg (byteFull (debias s b j)) j
  refine ⟨more, ?_⟩
  unfold pairBody
  rw [h, byteFull_log, debias_log]

theorem pairBody_appended (cfg : Cfg) (s : State) (b j : Nat) :
    (pairBody cfg s b j).1.appended = s.appended ++
      (if b.testBit j ≠ b.testBit (j + 1) then [(b.testBit j).toNat] else []) := by
  unfold pairBody
  rw [bufferFull_appended, byteFull_appended, debias_appended]

theorem PackInv_pairBody (cfg : Cfg) (hsize : cfg.BUFFER_SIZE < 4294967296) (s0 s : State)
    (b j : Nat) (h : PackInv cfg s0 s) : PackInv cfg s0 (pairBody cfg s b j).1 := by
  obtain ⟨xs, happ, hbits, hA, hB⟩ := h
  obtain ⟨more, hmore⟩ := pairBody_log_extends cfg s b j
  by_cases hlt : xs.length < 8 * cfg.BUFFER_SIZE
  · obtain ⟨hbc, hbit, hlen, hpk, hlog⟩ := hA hlt
    by_cases hne : b.testBit j ≠ b.testBit (j + 1)
    · -- a bit is appended
      have hch : (b.testBit j).toNat = 0 ∨ (b.testBit j).toNat = 1 := by
        cases b.testBit j <;> simp
      refine ⟨xs ++ [(b.testBit j).toNat], ?_, ?_, ?_, ?_⟩
      · rw [pairBody_appended, if_pos hne, happ, List.append_assoc]
      · intro x hx
        rcases List.mem_append.mp hx with hx | hx
        · exact hbits x hx
        · rw [List.mem_singleton.mp hx]; exact hch
      · intro hlt'
        rw [List.length_append, List.length_singleton] at hlt'
        have hpk' := packed_append s.bitbuffer xs _ hpk (by omega) hch
        have hdeb := debias_of_ne s b j hne
        have hnofull : (byteFull (debias s b j)).buffercounter < cfg.BUFFER_SIZE := by
          rw [hdeb]; unfold byteFull; dsimp only
          split_ifs <;> dsimp only <;> omega
        rw [pairBody_of_lt cfg s b j hnofull]
        dsimp only
        rw [List.length_append, List.length_singleton]
        refine ⟨?_, ?_, ?_, ?_, ?_⟩
        · rw [hdeb]; unfold byteFull; dsimp only
          split_ifs <;> dsimp only <;> omega
        · rw [hdeb]; unfold byteFull; dsimp only
          split_ifs <;> dsimp only <;> omega
        · rw [byteFull_bitbuffer, hdeb]; dsimp only
          split_ifs
          · rw [List.length_set]; exact hlen
          · exact hlen
        · rw [byteFull_bitbuffer, hdeb]; dsimp only
          rw [hbc, hbit]
          exact hpk'
        · rw [byteFull_log, debias_log]; exact hlog
      · intro hge
        rw [List.length_append, List.length_singleton] at hge
        have hpk' := packed_append s.bitbuffer xs _ hpk (by omega) hch
        have hdeb := debias_of_ne s b j hne
        have hfull : cfg.BUFFER_SIZE ≤ (byteFull (debias s b j)).buffercounter := by
          rw [hdeb]; unfold byteFull; dsimp only
          split_ifs <;> dsimp only <;> omega
        obtain ⟨c, hc, hblk⟩ := bufferFull_log_of_full cfg (byteFull (debias s b j)) j hfull
        refine ⟨c, [], ?_, ?_⟩
        · unfold pairBody
          rw [hc, byteFull_log, debias_log, hlog]
        · rw [hblk, byteFull_bitbuffer, hdeb]; dsimp only
          rw [List.take_of_length_le (by rw [List.length_append, List.length_singleton]; omega),
            hbc, hbit]
          exact hpk'
    · -- a bit is rejected
      have heq : b.testBit j = b.testBit (j + 1) := not_not.mp hne
      have hdeb := debias_of_eq s b j heq
      have hbf : byteFull (debias s b j) = debias s b j := by
        rw [hdeb]; unfold byteFull; dsimp only
        rw [if_neg (by omega)]
      refine ⟨xs, ?_, hbits, ?_, ?_⟩
      · rw [pairBody_appended, if_neg hne, List.append_nil, happ]
      · intro _
        rw [pairBody_of_lt cfg s b j (by rw [hbf, hdeb]; dsimp only; omega)]
        dsimp only
        rw [hbf, hdeb]
        exact ⟨hbc, hbit, hlen, hpk, hlog⟩
      · intro hge; omega
  · have hge : 8 * cfg.BUFFER_SIZE ≤ xs.length := by omega
    obtain ⟨c, rest, hlog, hpk⟩ := hB hge
    refine ⟨xs ++ (if b.testBit j ≠ b.testBit (j + 1) then [(b.testBit j).toNat] else []),
      ?_, ?_, ?_, ?_⟩
    · rw [pairBody_appended, happ, List.append_assoc]
    · intro x hx
      rcases List.mem_append.mp hx with hx | hx
      · exact hbits x hx
      · split_ifs at hx
        · rw [List.mem_singleton.mp hx]
          cases b.testBit j <;> simp
        · simp at hx
    · intro hlt'
      rw [List.length_append] at hlt'
      omega
    · intro _
      refine ⟨c, rest ++ more, ?_, ?_⟩
      · rw [hmore, hlog, List.append_assoc, List.cons_append]
      · rw [List.take_append_of_le_length hge]
        exact hpk

theorem PackInv_start (cfg : Cfg) (s0 : State) (hN : 0 < cfg.BUFFER_SIZE)
    (hbuf : s0.bitbuffer = List.replicate cfg.BUFFER_SIZE 0)
    (hbc : s0.buffercounter = 0) (hbit : s0.bitcounter = 0) : PackInv cfg s0 s0 := by
  refine ⟨[], (List.append_nil _).symm, ?_, ?_, ?_⟩
  · intro x hx
    simp at hx
  · intro _
    refine ⟨hbc, hbit, by rw [hbuf, List.length_replicate], ?_, rfl⟩
    intro j k
    rw [hbuf]
    simp [List.getD_eq_getElem?_getD, List.getElem?_replicate]
    split_ifs <;> simp
  · intro h
    simp at h
    omega

/-- C5: from a state with the accumulator empty (`bitbuffer` all zeros, both
counters 0), after any run, let `xs` be the bits appended to the accumulator
since, each 0 or 1. While fewer than `8 * BUFFER_SIZE` bits have been appended,
no block has been handed to the FIPS test, bit `k` of `bitbuffer[j]` is
`xs[8j+k]` and every other bit is 0, `buffercounter = |xs| / 8` and
`bitcounter = |xs| % 8`; from the `8 * BUFFER_SIZE`-th bit on, the first block
handed to the FIPS test has bit `k` of byte `j` equal to `xs[8j+k]`. -/
theorem lsb_first_packing (cfg : Cfg) (s0 : State) (chunks : List (List Nat))
    (hN : 0 < cfg.BUFFER_SIZE) (hsize : cfg.BUFFER_SIZE < 4294967296)
    (hbuf : s0.bitbuffer = List.replicate cfg.BUFFER_SIZE 0)
    (hbc : s0.buffercounter = 0) (hbit : s0.bitcounter = 0) :
    ∃ xs, (run cfg s0 chunks).appended = s0.appended ++ xs ∧ (∀ x ∈ xs, x = 0 ∨ x = 1) ∧
      (xs.length < 8 * cfg.BUFFER_SIZE →
        (run cfg s0 chunks).buffercounter = xs.length / 8 ∧
        (run cfg s0 chunks).bitcounter = xs.length % 8 ∧
        (run cfg s0 chunks).bitbuffer.length = cfg.BUFFER_SIZE ∧
        PackedLSB (run cfg s0 chunks).bitbuffer xs ∧
        (run cfg s0 chunks).log = s0.log) ∧
      (8 * cfg.BUFFER_SIZE ≤ xs.length →
        ∃ c rest, (run cfg s0 chunks).log = s0.log ++ c :: rest ∧
          PackedLSB c.block (xs.take (8 * cfg.BUFFER_SIZE))) :=
  run_invariant cfg (PackInv cfg s0) (fun s b j h => PackInv_pairBody cfg hsize s0 s b j h)
    (fun _ h => h) chunks s0 (PackInv_start cfg s0 hN hbuf hbc hbit)

/-- Instance of C5: one-byte blocks, the samples `15 2A` from the initial state
append 1,1,1,0,0,0 and leave `bitbuffer = [0b000111]`. -/
theorem lsb_first_packing_witness :
    (∃ xs, (run (cfgXor 1) (init (cfgXor 1)) [[0x15, 0x2A]]).appended
        = (init (cfgXor 1)).appended ++ xs ∧ (∀ x ∈ xs, x = 0 ∨ x = 1) ∧
      (xs.length < 8 * (cfgXor 1).BUFFER_SIZE →
        (run (cfgXor 1) (init (cfgXor 1)) [[0x15, 0x2A]]).buffercounter = xs.length / 8 ∧
        (run (cfgXor 1) (init (cfgXor 1)) [[0x15, 0x2A]]).bitcounter = xs.length % 8 ∧
        (run (cfgXor 1) (init (cfgXor 1)) [[0x15, 0x2A]]).bitbuffer.length
          = (cfgXor 1).BUFFER_SIZE ∧
        PackedLSB (run (cfgXor 1) (init (cfgXor 1)) [[0x15, 0x2A]]).bitbuffer xs ∧
        (run (cfgXor 1) (init (cfgXor 1)) [[0x15, 0x2A]]).log = (init (cfgXor 1)).log) ∧
      (8 * (cfgXor 1).BUFFER_SIZE ≤ xs.length →
        ∃ c rest, (run (cfgXor 1) (init (cfgXor 1)) [[0x15, 0x2A]]).log
            = (init (cfgXor 1)).log ++ c :: rest ∧
          PackedLSB c.block (xs.take (8 * (cfgXor 1).BUFFER_SIZE)))) ∧
    (run (cfgXor 1) (init (cfgXor 1)) [[0x15, 0x2A]]).appended = [1, 1, 1, 0, 0, 0] ∧
    (run (cfgXor 1) (init (cfgXor 1)) [[0x15, 0x2A]]).bitbuffer = [7] ∧
    (run (cfgXor 1) (init (cfgXor 1)) [[0x15, 0x2A, 0x15]]).log.map Completion.block
      = [[199]] :=
  ⟨lsb_first_packing (cfgXor 1) (init (cfgXor 1)) [[0x15, 0x2A]] (by decide) (by decide)
    rfl rfl rfl, by decide, by decide, by decide⟩

/-! ## The loop over `j` ends within three iterations -/

theorem bufferFull_snd (cfg : Cfg) (s : State) (j : Nat) :
    (bufferFull cfg s j).2 = j ∨ (bufferFull cfg s j).2 = N_FIPS_TESTS := by
  by_cases hfull : cfg.BUFFER_SIZE ≤ s.buffercounter
  · by_cases hres : cfg.fips_run_rng_test (s.log.map Completion.block) s.bitbuffer = 0
    · left
      unfold bufferFull
      rw [if_pos hfull]
      simp only [if_pos hres]
    · right
      rw [bufferFull_reject cfg s j hfull hres]
  · left
    rw [bufferFull_of_lt cfg s j (by omega)]

/-- Once `fuel` iterations are enough to carry `j` past 5, more fuel changes
nothing: the loop has ended by itself. -/
theorem pairLoop_fuel (cfg : Cfg) (b : Nat) :
    ∀ fuel s j k, 6 ≤ j + 2 * fuel → pairLoop cfg (fuel + k) s b j = pairLoop cfg fuel s b j := by
  intro fuel
  induction fuel with
  | zero =>
    intro s j k h
    cases k with
    | zero => rfl
    | succ k =>
      rw [Nat.zero_add]
      show pairLoop cfg (k + 1) s b j = s
      unfold pairLoop
      rw [if_neg (by omega)]
  | succ n ih =>
    intro s j k h
    have e : n + 1 + k = (n + k) + 1 := by omega
    rw [e]
    unfold pairLoop
    split
    · have hj : j ≤ (pairBody cfg s b j).2 ∨ (pairBody cfg s b j).2 = 5 := by
        rcases bufferFull_snd cfg (byteFull (debias s b j)) j with h1 | h1
        · left; unfold pairBody; omega
        · right; unfold pairBody; rw [h1]; rfl
      exact ih _ _ k (by omega)
    · rfl

/-- Three iterations are enough for every sample, from every state. -/
theorem sampleStep_total (cfg : Cfg) (s : State) (b k : Nat) :
    pairLoop cfg (3 + k) s b 0 = sampleStep cfg s b :=
  pairLoop_fuel cfg b 3 s 0 k (by omega)

/-! ## The counters stay inside the array -/

theorem counters_pairBody (cfg : Cfg) (hN : 0 < cfg.BUFFER_SIZE)
    (hsize : cfg.BUFFER_SIZE < 4294967296) (s : State) (b j : Nat)
    (h : s.bitcounter < 8 ∧ s.buffercounter < cfg.BUFFER_SIZE) :
    (pairBody cfg s b j).1.bitcounter < 8 ∧
      (pairBody cfg s b j).1.buffercounter < cfg.BUFFER_SIZE := by
  have h1 : (byteFull (debias s b j)).bitcounter < 8 ∧
      (byteFull (debias s b j)).buffercounter ≤ cfg.BUFFER_SIZE := by
    unfold byteFull debias
    dsimp only
    split_ifs <;> dsimp only at * <;> omega
  unfold pairBody
  generalize byteFull (debias s b j) = t at h1
  unfold bufferFull conditioner
  dsimp only
  split_ifs <;> dsimp only <;> omega

/-- Along every run from the initial state `bitcounter < 8` and
`buffercounter < BUFFER_SIZE`. -/
theorem counters_run (cfg : Cfg) (hN : 0 < cfg.BUFFER_SIZE)
    (hsize : cfg.BUFFER_SIZE < 4294967296) (chunks : List (List Nat)) :
    (run cfg (init cfg) chunks).bitcounter < 8 ∧
      (run cfg (init cfg) chunks).buffercounter < cfg.BUFFER_SIZE :=
  run_invariant cfg (fun s => s.bitcounter < 8 ∧ s.buffercounter < cfg.BUFFER_SIZE)
    (counters_pairBody cfg hN hsize) (fun _ h => h) chunks (init cfg) ⟨Nat.zero_lt_succ 7, hN⟩

/-! ## Runs of the sample `0x2A`, which appends three zero bits -/

theorem debias_2A (s : State) (j : Nat) (hj : j = 0 ∨ j = 2 ∨ j = 4) :
    debias s 0x2A j =
      { s with bitcounter := (s.bitcounter + 1) % 4294967296, appended := s.appended ++ [0] } := by
  rcases hj with h | h | h <;> subst h <;> rw [debias_of_ne s _ _ (by decide)] <;> rfl

/-- One unequal pair with first bit 0, met inside a byte array of fewer than
2^32 bytes: the bit position moves by one and 0 is appended. -/
theorem pair_2A (s : State) (j p : Nat) (hj : j = 0 ∨ j = 2 ∨ j = 4)
    (hbit : s.bitcounter = p % 8) (hbc : s.buffercounter = p / 8)
    (hp : p / 8 + 1 < 4294967296) :
    byteFull (debias s 0x2A j) =
      { s with
        bitcounter := (p + 1) % 8
        buffercounter := (p + 1) / 8
        appended := s.appended ++ [0] } := by
  rw [debias_2A s j hj]
  unfold byteFull
  dsimp only
  split_ifs with h
  · have e1 : (s.buffercounter + 1) % 4294967296 = (p + 1) / 8 := by omega
    have e2 : 0 = (p + 1) % 8 := by omega
    rw [e1, ← e2]
  · have e1 : s.buffercounter = (p + 1) / 8 := by omega
    have e2 : (s.bitcounter + 1) % 4294967296 = (p + 1) % 8 := by omega
    rw [← e1, e2]

/-- The sample `0x2A`, met at bit position `p` with more than three free bit
positions, moves the position to `p + 3` and appends 0, 0, 0; nothing else
changes. -/
theorem sampleStep_2A (cfg : Cfg) (s : State) (p : Nat) (hsize : cfg.BUFFER_SIZE < 4294967296)
    (hbit : s.bitcounter = p % 8) (hbc : s.buffercounter = p / 8)
    (hfree : p + 3 < 8 * cfg.BUFFER_SIZE) :
    sampleStep cfg s 0x2A =
      { s with
        bitcounter := (p + 3) % 8
        buffercounter := (p + 3) / 8
        appended := s.appended ++ [0, 0, 0] } := by
  have h0 := pair_2A s 0 p (Or.inl rfl) hbit hbc (by omega)
  have h1 := pair_2A
    { s with
      bitcounter := (p + 1) % 8
      buffercounter := (p + 1) / 8
      appended := s.appended ++ [0] }
    2 (p + 1) (Or.inr (Or.inl rfl)) rfl rfl (by omega)
  have h2 := pair_2A
    { s with
      bitcounter := (p + 1 + 1) % 8
      buffercounter := (p + 1 + 1) / 8
      appended := s.appended ++ [0] ++ [0] }
    4 (p + 1 + 1) (Or.inr (Or.inr rfl)) rfl rfl (by omega)
  dsimp only at h1 h2
  rw [sampleStep_of_free cfg s _ (by omega), h0, h1,
    pairBody_of_lt cfg _ _ 4 (by rw [h2]; dsimp only; omega), h2]
  simp only [List.append_assoc, List.singleton_append]
  rfl

/-- A run of `n` samples `0x2A` that leaves the block unfinished moves the
position by `3 * n` and appends `3 * n` zeros; nothing else changes. -/
theorem processBuffer_2A (cfg : Cfg) (hsize : cfg.BUFFER_SIZE < 4294967296) :
    ∀ (n : Nat) (s : State) (p : Nat), s.bitcounter = p % 8 → s.buffercounter = p / 8 →
      p + 3 * n < 8 * cfg.BUFFER_SIZE →
      processBuffer cfg s (List.replicate n 0x2A) =
        { s with
          bitcounter := (p + 3 * n) % 8
          buffercounter := (p + 3 * n) / 8
          appended := s.appended ++ List.replicate (3 * n) 0 } := by
  intro n
  induction n with
  | zero =>
    intro s p hbit hbc _
    show s = _
    simp only [Nat.mul_zero, Nat.add_zero, List.replicate_zero, List.append_nil, ← hbit, ← hbc]
  | succ n ih =>
    intro s p hbit hbc hfree
    show processBuffer cfg (sampleStep cfg s 0x2A) (List.replicate n 0x2A) = _
    rw [sampleStep_2A cfg s p hsize hbit hbc (by omega)]
    rw [ih _ (p + 3) rfl rfl (by omega)]
    have e : p + 3 + 3 * n = p + 3 * (n + 1) := by omega
    have e' : 3 * (n + 1) = 3 + 3 * n := by omega
    simp only [e, e', List.append_assoc, List.replicate_add]
    rfl

theorem processBuffer_snoc (cfg : Cfg) (s : State) (l : List Nat) (b : Nat) :
    processBuffer cfg s (l ++ [b]) = sampleStep cfg (processBuffer cfg s l) b := by
  unfold processBuffer
  rw [List.foldl_append]
  rfl

theorem run_single (cfg : Cfg) (s : State) (c : List Nat) :
    run cfg s [c] = processBuffer cfg { s with output_ready := 0 } c := rfl

theorem pairLoop_succ (cfg : Cfg) (fuel : Nat) (s : State) (b j : Nat) :
    pairLoop cfg (fuel + 1) s b j =
      if j < 6 then pairLoop cfg fuel (pairBody cfg s b j).1 b ((pairBody cfg s b j).2 + 2)
      else s := rfl

/-- The sample `0x2A` met two bits before the end of a block that then fails the
FIPS tests: the first two pairs are appended, the third is skipped. -/
theorem sampleStep_2A_rejected (cfg : Cfg) (s : State) (k : Nat)
    (hN : cfg.BUFFER_SIZE = k + 1) (hsize : cfg.BUFFER_SIZE < 4294967296)
    (hbit : s.bitcounter = 6) (hbc : s.buffercounter = k)
    (hrej : cfg.fips_run_rng_test (s.log.map Completion.block) s.bitbuffer ≠ 0) :
    (sampleStep cfg s 0x2A).appended = s.appended ++ [0, 0] ∧
    (sampleStep cfg s 0x2A).hashed = s.hashed := by
  have h0 : byteFull (debias s 0x2A 0) =
      { s with bitcounter := 7, buffercounter := k, appended := s.appended ++ [0] } := by
    rw [pair_2A s 0 (8 * k + 6) (Or.inl rfl) (by omega) (by omega) (by omega)]
    have e1 : (8 * k + 6 + 1) % 8 = 7 := by omega
    have e2 : (8 * k + 6 + 1) / 8 = k := by omega
    rw [e1, e2]
  have h1 : byteFull (debias
        { s with bitcounter := 7, buffercounter := k, appended := s.appended ++ [0] } 0x2A 2) =
      { s with bitcounter := 0, buffercounter := k + 1,
               appended := s.appended ++ [0] ++ [0] } := by
    rw [pair_2A _ 2 (8 * k + 7) (Or.inr (Or.inl rfl)) (by dsimp only; omega)
      (by dsimp only; omega) (by omega)]
    have e1 : (8 * k + 7 + 1) % 8 = 0 := by omega
    have e2 : (8 * k + 7 + 1) / 8 = k + 1 := by omega
    rw [e1, e2]
  unfold sampleStep
  rw [pairLoop_succ, if_pos (by decide), pairBody_of_lt cfg s _ 0 (by rw [h0]; dsimp only; omega),
    h0]
  dsimp only
  rw [pairLoop_succ, if_pos (by decide)]
  have hb := bufferFull_reject cfg
    { s with
      bitcounter := 0
      buffercounter := k + 1
      appended := s.appended ++ [0] ++ [0] }
    (0 + 2) (by dsimp only; omega) hrej
  unfold pairBody
  rw [h1, hb]
  dsimp only
  rw [pairLoop_succ, if_neg (by decide)]
  dsimp only
  simp only [List.append_assoc, List.singleton_append, and_self]

/-- A chunk of `n` samples `0x2A` from the initial state, with `3 * n` one more
than the number of bits of a block and a FIPS test that rejects the zero block:
`3 * n - 1` bits are accounted for. -/
theorem zero_chunk_loses_a_pair (cfg : Cfg) (n : Nat) (hsize : cfg.BUFFER_SIZE < 4294967296)
    (hrej : ∀ hist, cfg.fips_run_rng_test hist (List.replicate cfg.BUFFER_SIZE 0) ≠ 0)
    (hn : 3 * n = 8 * cfg.BUFFER_SIZE + 1) :
    (run cfg (init cfg) [List.replicate n 0x2A]).appended.length
      + (run cfg (init cfg) [List.replicate n 0x2A]).hashed.length = 3 * n - 1 := by
  obtain ⟨m, rfl⟩ : ∃ m, n = m + 1 := ⟨n - 1, by omega⟩
  obtain ⟨k, hk⟩ : ∃ k, cfg.BUFFER_SIZE = k + 1 := ⟨cfg.BUFFER_SIZE - 1, by omega⟩
  rw [run_single, List.replicate_succ', processBuffer_snoc,
    processBuffer_2A cfg hsize m _ 0 rfl rfl (by omega)]
  have h := sampleStep_2A_rejected cfg
    { init cfg with
      output_ready := 0
      bitcounter := (0 + 3 * m) % 8
      buffercounter := (0 + 3 * m) / 8
      appended := [] ++ List.replicate (3 * m) 0 }
    k hk hsize (by dsimp only; omega) (by dsimp only; omega) (hrej _)
  dsimp only [init] at h ⊢
  rw [h.1, h.2]
  simp
  omega

/-! ## A chunk that completes two blocks in XOR mode -/

theorem processBuffer_append (cfg : Cfg) (s : State) (l1 l2 : List Nat) :
    processBuffer cfg s (l1 ++ l2) = processBuffer cfg (processBuffer cfg s l1) l2 := by
  unfold processBuffer
  rw [List.foldl_append]

/-- An unequal pair with first bit 0 of any sample: as for `0x2A`. -/
theorem pair_zero_bit (s : State) (b j p : Nat) (h0 : b.testBit j = false)
    (h1 : b.testBit (j + 1) = true)
    (hbit : s.bitcounter = p % 8) (hbc : s.buffercounter = p / 8)
    (hp : p / 8 + 1 < 4294967296) :
    byteFull (debias s b j) =
      { s with
        bitcounter := (p + 1) % 8
        buffercounter := (p + 1) / 8
        appended := s.appended ++ [0] } := by
  rw [debias_of_ne s b j (by rw [h0, h1]; decide), h0]
  unfold byteFull
  dsimp only [Bool.toNat_false, ne_eq, not_true_eq_false, if_false]
  simp only [not_true_eq_false, if_false]
  split_ifs with h
  · have e1 : (s.buffercounter + 1) % 4294967296 = (p + 1) / 8 := by omega
    have e2 : 0 = (p + 1) % 8 := by omega
    rw [e1, ← e2]
  · have e1 : s.buffercounter = (p + 1) / 8 := by omega
    have e2 : (s.bitcounter + 1) % 4294967296 = (p + 1) % 8 := by omega
    rw [← e1, e2]

/-- An unequal pair with first bit 1, met at the first bit of a block. -/
theorem pair_one_bit_first (s : State) (b j : Nat) (h0 : b.testBit j = true)
    (h1 : b.testBit (j + 1) = false)
    (hbit : s.bitcounter = 0) (hbc : s.buffercounter = 0) :
    byteFull (debias s b j) =
      { s with
        bitbuffer := s.bitbuffer.set 0 ((s.bitbuffer.getD 0 0 ||| 1) % 256)
        bitcounter := 1
        appended := s.appended ++ [1] } := by
  rw [debias_of_ne s b j (by rw [h0, h1]; decide), h0, hbit, hbc]
  unfold byteFull
  dsimp only [Bool.toNat_true]
  simp only [one_ne_zero, ne_eq, not_false_eq_true, if_true]
  rw [if_neg (by decide)]
  rfl

/-- The sample `0x1A` met two bits before the end of a block that passes the
FIPS tests, in XOR mode: two zeros end the block, the block is conditioned,
and a one starts the next block. -/
theorem sampleStep_1A_accept (cfg : Cfg) (s : State) (k : Nat)
    (hxor : cfg.gflags_encryption = 0)
    (hN : cfg.BUFFER_SIZE = k + 1) (hsize : cfg.BUFFER_SIZE < 4294967296)
    (hbit : s.bitcounter = 6) (hbc : s.buffercounter = k)
    (hres : cfg.fips_run_rng_test (s.log.map Completion.block) s.bitbuffer = 0) :
    sampleStep cfg s 0x1A =
      { s with
        bitbuffer := (List.replicate cfg.BUFFER_SIZE 0).set 0
          (((List.replicate cfg.BUFFER_SIZE 0).getD 0 0 ||| 1) % 256)
        bitbuffer_old := xorBuffers s.bitbuffer s.bitbuffer_old
        bitcounter := 1
        buffercounter := 0
        output_ready := 1
        appended := s.appended ++ [0] ++ [0] ++ [1]
        sink := s.sink ++ (if s.output_ready ≠ 0 then [s.bitbuffer_old] else [])
        log := s.log ++ [{ block := s.bitbuffer, fips_result := 0,
                           written := if s.output_ready ≠ 0 then [s.bitbuffer_old] else [] }] } := by
  have h0 : byteFull (debias s 0x1A 0) =
      { s with bitcounter := 7, buffercounter := k, appended := s.appended ++ [0] } := by
    rw [pair_zero_bit s _ 0 (8 * k + 6) (by decide) (by decide) (by omega) (by omega) (by omega)]
    have e1 : (8 * k + 6 + 1) % 8 = 7 := by omega
    have e2 : (8 * k + 6 + 1) / 8 = k := by omega
    rw [e1, e2]
  have h1 : byteFull (debias
        { s with bitcounter := 7, buffercounter := k, appended := s.appended ++ [0] } 0x1A 2) =
      { s with bitcounter := 0, buffercounter := k + 1,
               appended := s.appended ++ [0] ++ [0] } := by
    rw [pair_zero_bit _ _ 2 (8 * k + 7) (by decide) (by decide) (by dsimp only; omega)
      (by dsimp only; omega) (by omega)]
    have e1 : (8 * k + 7 + 1) % 8 = 0 := by omega
    have e2 : (8 * k + 7 + 1) / 8 = k + 1 := by omega
    rw [e1, e2]
  have hb := bufferFull_xor_accept cfg
    { s with
      bitcounter := 0
      buffercounter := k + 1
      appended := s.appended ++ [0] ++ [0] }
    (0 + 2) hxor (by dsimp only; omega) hres
  dsimp only at hb
  have h2 := pair_one_bit_first
    { s with
      bitbuffer := List.replicate cfg.BUFFER_SIZE 0
      bitbuffer_old := xorBuffers s.bitbuffer s.bitbuffer_old
      bitcounter := 0
      buffercounter := 0
      output_ready := 1
      appended := s.appended ++ [0] ++ [0]
      sink := s.sink ++ (if s.output_ready ≠ 0 then [s.bitbuffer_old] else [])
      log := s.log ++ [{ block := s.bitbuffer, fips_result := 0,
                         written := if s.output_ready ≠ 0 then [s.bitbuffer_old] else [] }] }
    0x1A 4 (by decide) (by decide) rfl rfl
  dsimp only at h2
  unfold sampleStep
  rw [pairLoop_succ, if_pos (by decide), pairBody_of_lt cfg s _ 0 (by rw [h0]; dsimp only; omega),
    h0]
  dsimp only
  rw [pairLoop_succ, if_pos (by decide)]
  unfold pairBody
  rw [h1, hb]
  dsimp only
  rw [pairLoop_succ, if_pos (by decide), pairBody_of_lt cfg _ _ _ (by rw [h2]; dsimp only; omega),
    h2]
  rfl

/-- The sample `0x2A` met one bit before the end of a block that passes the
FIPS tests, in XOR mode: a zero ends the block, the block is conditioned, and
two zeros start the next block. -/
theorem sampleStep_2A_accept (cfg : Cfg) (s : State) (k : Nat)
    (hxor : cfg.gflags_encryption = 0)
    (hN : cfg.BUFFER_SIZE = k + 1) (hsize : cfg.BUFFER_SIZE < 4294967296)
    (hbit : s.bitcounter = 7) (hbc : s.buffercounter = k)
    (hres : cfg.fips_run_rng_test (s.log.map Completion.block) s.bitbuffer = 0) :
    sampleStep cfg s 0x2A =
      { s with
        bitbuffer := List.replicate cfg.BUFFER_SIZE 0
        bitbuffer_old := xorBuffers s.bitbuffer s.bitbuffer_old
        bitcounter := 2
        buffercounter := 0
        output_ready := 1
        appended := s.appended ++ [0] ++ [0] ++ [0]
        sink := s.sink ++ (if s.output_ready ≠ 0 then [s.bitbuffer_old] else [])
        log := s.log ++ [{ block := s.bitbuffer, fips_result := 0,
                           written := if s.output_ready ≠ 0 then [s.bitbuffer_old] else [] }] } := by
  have h0 : byteFull (debias s 0x2A 0) =
      { s with bitcounter := 0, buffercounter := k + 1, appended := s.appended ++ [0] } := by
    rw [pair_2A s 0 (8 * k + 7) (Or.inl rfl) (by omega) (by omega) (by omega)]
    have e1 : (8 * k + 7 + 1) % 8 = 0 := by omega
    have e2 : (8 * k + 7 + 1) / 8 = k + 1 := by omega
    rw [e1, e2]
  have hb := bufferFull_xor_accept cfg
    { s with
      bitcounter := 0
      buffercounter := k + 1
      appended := s.appended ++ [0] }
    0 hxor (by dsimp only; omega) hres
  dsimp only at hb
  have h1 := pair_2A
    { s with
      bitbuffer := List.replicate cfg.BUFFER_SIZE 0
      bitbuffer_old := xorBuffers s.bitbuffer s.bitbuffer_old
      bitcounter := 0
      buffercounter := 0
      output_ready := 1
      appended := s.appended ++ [0]
      sink := s.sink ++ (if s.output_ready ≠ 0 then [s.bitbuffer_old] else [])
      log := s.log ++ [{ block := s.bitbuffer, fips_result := 0,
                         written := if s.output_ready ≠ 0 then [s.bitbuffer_old] else [] }] }
    (0 + 2) 0 (Or.inr (Or.inl rfl)) rfl rfl (by decide)
  dsimp only at h1
  have h2 := pair_2A
    { s with
      bitbuffer := List.replicate cfg.BUFFER_SIZE 0
      bitbuffer_old := xorBuffers s.bitbuffer s.bitbuffer_old
      bitcounter := (0 + 1) % 8
      buffercounter := (0 + 1) / 8
      output_ready := 1
      appended := s.appended ++ [0] ++ [0]
      sink := s.sink ++ (if s.output_ready ≠ 0 then [s.bitbuffer_old] else [])
      log := s.log ++ [{ block := s.bitbuffer, fips_result := 0,
                         written := if s.output_ready ≠ 0 then [s.bitbuffer_old] else [] }] }
    (0 + 2 + 2) 1 (Or.inr (Or.inr rfl)) rfl rfl (by decide)
  dsimp only at h2
  unfold sampleStep
  rw [pairLoop_succ, if_pos (by decide)]
  unfold pairBody
  rw [h0, hb]
  dsimp only
  rw [pairLoop_succ, if_pos (by decide), pairBody_of_lt cfg _ _ _ (by rw [h1]; dsimp only; omega),
    h1]
  dsimp only
  rw [pairLoop_succ, if_pos (by decide), pairBody_of_lt cfg _ _ _ (by rw [h2]; dsimp only; omega),
    h2]
  rfl

/-- In XOR mode with a FIPS test that accepts every block, the chunk made of
`m` samples `0x2A`, one `0x1A`, `m` samples `0x2A` and one `0x2A`, where `3 * m`
is two less than the number of bits of a block, completes the block of zeros
and then the block whose only set bit is bit 0 of byte 0; the only block
written is the block of zeros. -/
theorem two_block_chunk (cfg : Cfg) (m k : Nat) (hxor : cfg.gflags_encryption = 0)
    (hacc : ∀ hist blk, cfg.fips_run_rng_test hist blk = 0)
    (hN : cfg.BUFFER_SIZE = k + 1) (hsize : cfg.BUFFER_SIZE < 4294967296)
    (hm : 3 * m = 8 * k + 6) :
    (run cfg (init cfg)
      [List.replicate m 0x2A ++ [0x1A] ++ List.replicate m 0x2A ++ [0x2A]]).sink
      = [List.replicate cfg.BUFFER_SIZE 0] ∧
    accepted (run cfg (init cfg)
      [List.replicate m 0x2A ++ [0x1A] ++ List.replicate m 0x2A ++ [0x2A]]).log
      = [List.replicate cfg.BUFFER_SIZE 0, (List.replicate cfg.BUFFER_SIZE 0).set 0 1] := by
  rw [run_single, processBuffer_snoc, processBuffer_append, processBuffer_snoc,
    processBuffer_2A cfg hsize m { init cfg with output_ready := 0 } 0 rfl rfl (by omega)]
  rw [sampleStep_1A_accept cfg _ k hxor hN hsize ?_ ?_ (hacc _ _)]
  · rw [processBuffer_2A cfg hsize m _ 1 rfl rfl (by omega)]
    rw [sampleStep_2A_accept cfg _ k hxor hN hsize ?_ ?_ (hacc _ _)]
    · dsimp only [init]
      have hz : ((List.replicate cfg.BUFFER_SIZE 0).getD 0 0 ||| 1) % 256 = 1 := by
        rw [hN, List.replicate_succ]; simp
      rw [hz, xorBuffers_replicate]
      constructor
      · simp
      · rw [accepted_append, accepted_append]
        simp [accepted, xorBuffers_replicate]
    · dsimp only; omega
    · dsimp only; omega
  · dsimp only; omega
  · dsimp only; omega

/-! ## The two refuted statements, on concrete runs -/

theorem all_zero_replicate (n : Nat) :
    (List.replicate n 0).all (fun x => x == 0) = true := by
  rw [List.all_eq_true]
  intro x hx
  rw [List.eq_of_mem_replicate hx]
  rfl

/-- C1, refuted as stated. With 2500-byte blocks and every block accepted, the
chunk of 6666 samples `2A`, one `1A`, 6666 samples `2A` and one `2A`, from the
initial state: the accepted blocks are `B1` (all 0x00) and `B2` (0x01 followed
by 0x00), and the only block written is all 0x00, not `B2 XOR B1`. With
one-byte blocks and the chunk `2A 2A 1A 15 15 15`: the accepted blocks are
`[0x00]` and `[0xFF]` and the only block written is `[0x00]`, not `[0xFF]`.
And when `B1` all 0x00 and then `B2` all 0xFF are completed and accepted,
nothing is written for `B1` and a block of 0x00 for `B2`. -/
theorem xor_mode_does_not_emit_pairwise_xor :
    (accepted (run (cfgXor 2500) (init (cfgXor 2500))
        [List.replicate 6666 0x2A ++ [0x1A] ++ List.replicate 6666 0x2A ++ [0x2A]]).log
      = [List.replicate 2500 0, (List.replicate 2500 0).set 0 1] ∧
     (run (cfgXor 2500) (init (cfgXor 2500))
        [List.replicate 6666 0x2A ++ [0x1A] ++ List.replicate 6666 0x2A ++ [0x2A]]).sink
      = [List.replicate 2500 0] ∧
     (run (cfgXor 2500) (init (cfgXor 2500))
        [List.replicate 6666 0x2A ++ [0x1A] ++ List.replicate 6666 0x2A ++ [0x2A]]).sink
      ≠ [xorBuffers ((List.replicate 2500 0).set 0 1) (List.replicate 2500 0)]) ∧
    (accepted (run (cfgXor 1) (init (cfgXor 1)) [[0x2A, 0x2A, 0x1A, 0x15, 0x15, 0x15]]).log
      = [[0], [255]] ∧
     (run (cfgXor 1) (init (cfgXor 1)) [[0x2A, 0x2A, 0x1A, 0x15, 0x15, 0x15]]).sink = [[0]] ∧
     (run (cfgXor 1) (init (cfgXor 1)) [[0x2A, 0x2A, 0x1A, 0x15, 0x15, 0x15]]).sink
      ≠ [xorBuffers [255] [0]]) ∧
    ((bufferFull (cfgXor 2500)
      (blockReady (cfgXor 2500) (List.replicate 2500 0) (List.replicate 2500 0) 0) 0).1.sink
      = [] ∧
     (bufferFull (cfgXor 2500)
      (blockReady (cfgXor 2500) (List.replicate 2500 0) (List.replicate 2500 0) 0)
        0).1.bitbuffer_old = List.replicate 2500 0 ∧
     (bufferFull (cfgXor 2500)
      (blockReady (cfgXor 2500) (List.replicate 2500 255) (List.replicate 2500 0) 1) 0).1.sink
      = [List.replicate 2500 0] ∧
     [List.replicate 2500 0] ≠
      [xorBuffers (List.replicate 2500 255) (List.replicate 2500 0)]) := by
  have h := two_block_chunk (cfgXor 2500) 6666 2499 rfl (fun _ _ => rfl) rfl (by decide)
    (by decide)
  refine ⟨⟨h.2, h.1, ?_⟩, ⟨by decide, by decide, by decide⟩, ?_, ?_, ?_, ?_⟩
  · rw [h.1]
    decide
  · rw [bufferFull_xor_accept _ _ _ rfl (le_refl _) rfl]
    rfl
  · rw [bufferFull_xor_accept _ _ _ rfl (le_refl _) rfl]
    exact xorBuffers_replicate 2500 0 0
  · rw [bufferFull_xor_accept _ _ _ rfl (le_refl _) rfl]
    rfl
  · rw [xorBuffers_replicate]
    decide

set_option maxRecDepth 100000 in
/-- C4, evaluated where it fails. With 2500-byte blocks and a FIPS test that
rejects the block of zeros, the chunk of 6667 samples `2A` from the initial
state: the 20000th bit is the second pair of the last sample, the block fails,
the failure branch leaves `j = 5` and the third pair is never looked at, so
20000 bits are accounted for instead of 20001. With one-byte blocks the chunk
`2A 2A 2A` accounts for 8 bits instead of 9. -/
theorem fips_failure_skips_remaining_pairs :
    ((run (cfgMonobit 2500) (init (cfgMonobit 2500)) [List.replicate 6667 0x2A]).appended.length
      + (run (cfgMonobit 2500) (init (cfgMonobit 2500))
          [List.replicate 6667 0x2A]).hashed.length = 20000 ∧
     (run (cfgMonobit 2500) (init (cfgMonobit 2500)) [List.replicate 6667 0x2A]).appended.length
      + (run (cfgMonobit 2500) (init (cfgMonobit 2500))
          [List.replicate 6667 0x2A]).hashed.length
      ≠ 3 * (List.replicate 6667 0x2A).length) ∧
    ((run (cfgMonobit 1) (init (cfgMonobit 1)) [[0x2A, 0x2A, 0x2A]]).appended.length
      + (run (cfgMonobit 1) (init (cfgMonobit 1)) [[0x2A, 0x2A, 0x2A]]).hashed.length = 8 ∧
     (run (cfgMonobit 1) (init (cfgMonobit 1)) [[0x2A, 0x2A, 0x2A]]).appended.length
      + (run (cfgMonobit 1) (init (cfgMonobit 1)) [[0x2A, 0x2A, 0x2A]]).hashed.length
      ≠ 3 * [0x2A, 0x2A, 0x2A].length) ∧
    (pairBody (cfgMonobit 2500) (nearlyFull (cfgMonobit 2500) (List.replicate 2500 0)
        (List.replicate 2500 0) 1 0) 0x2A 2).2 = N_FIPS_TESTS := by
  have hrej : ∀ hist, (cfgMonobit 2500).fips_run_rng_test hist
      (List.replicate (cfgMonobit 2500).BUFFER_SIZE 0) ≠ 0 := by
    intro hist
    show (if (List.replicate 2500 0).all (fun x => x == 0) then (1 : Int) else 0) ≠ 0
    rw [all_zero_replicate]
    decide
  have h := zero_chunk_loses_a_pair (cfgMonobit 2500) 6667 (by decide) hrej (by decide)
  refine ⟨⟨h, ?_⟩, ⟨by decide, by decide⟩, by decide⟩
  rw [h, List.length_replicate]
  decide

/-! ## What always holds of the bit count -/

theorem pairBody_count (cfg : Cfg) (s : State) (b j : Nat) :
    (pairBody cfg s b j).1.appended.length + (pairBody cfg s b j).1.hashed.length
      = s.appended.length + s.hashed.length + 1 := by
  unfold pairBody
  rw [bufferFull_appended, bufferFull_hashed, byteFull_appended, byteFull_hashed,
    debias_appended, debias_hashed]
  by_cases h : b.testBit j = b.testBit (j + 1)
  · simp [h]
    omega
  · simp [h]
    omega

theorem pairLoop_count (cfg : Cfg) (b : Nat) :
    ∀ fuel s j, (pairLoop cfg fuel s b j).appended.length + (pairLoop cfg fuel s b j).hashed.length
      ≤ s.appended.length + s.hashed.length + fuel := by
  intro fuel
  induction fuel with
  | zero => intro s j; exact le_refl _
  | succ n ih =>
    intro s j
    rw [pairLoop_succ]
    split
    · have h1 := ih (pairBody cfg s b j).1 ((pairBody cfg s b j).2 + 2)
      have h2 := pairBody_count cfg s b j
      omega
    · omega

/-- Every chunk of `L` samples accounts for at most `3 * L` bits, appended or
pushed, whatever the FIPS verdicts. -/
theorem processBuffer_count (cfg : Cfg) :
    ∀ (buffer : List Nat) (s : State),
      (processBuffer cfg s buffer).appended.length + (processBuffer cfg s buffer).hashed.length
        ≤ s.appended.length + s.hashed.length + 3 * buffer.length := by
  intro buffer
  induction buffer with
  | nil => intro s; exact le_refl _
  | cons b bs ih =>
    intro s
    have h1 := ih (sampleStep cfg s b)
    have h2 := pairLoop_count cfg b 3 s 0
    have e : processBuffer cfg s (b :: bs) = processBuffer cfg (sampleStep cfg s b) bs := rfl
    rw [e, List.length_cons]
    unfold sampleStep at h1 ⊢
    omega

/-! ## XOR mode: what an acceptance writes -/

/-- The last bit, a one, stored in a block of `n` bytes 0xFF followed by 0x7F
gives `n + 1` bytes 0xFF. -/
theorem store_last_one (n : Nat) :
    (List.replicate n 255 ++ [127]).set n
        (((List.replicate n 255 ++ [127]).getD n 0 ||| (1 <<< 7)) % 256)
      = List.replicate (n + 1) 255 := by
  have hl : (List.replicate n 255).length = n := List.length_replicate n 255
  have hg : (List.replicate n 255 ++ [127]).getD n 0 = 127 := by
    rw [List.getD_eq_getElem?_getD, List.getElem?_append_right (by omega), hl, Nat.sub_self]
    rfl
  rw [hg, List.set_append, if_neg (by omega), hl, Nat.sub_self, List.replicate_succ']
  rfl

/-- C1 (amended): in XOR mode, (a) when the pair being processed completes a
block that passes the FIPS tests, what is written to the sink is the value
`bitbuffer_old` had before, exactly when `output_ready` is set and nothing
otherwise, and `bitbuffer_old` becomes the XOR of the accepted block with that
value; (b) a chunk during which at most one block is accepted writes nothing;
(c) along every run from the initial state, a completion that writes is an
acceptance, is not the first acceptance of the run, and writes one block, the
XOR of all blocks accepted before it. -/
theorem xor_mode_writes_previous_accumulator (cfg : Cfg) (hxor : cfg.gflags_encryption = 0) :
    (∀ s b j, s.buffercounter < cfg.BUFFER_SIZE →
      cfg.BUFFER_SIZE ≤ (byteFull (debias s b j)).buffercounter →
      cfg.fips_run_rng_test ((byteFull (debias s b j)).log.map Completion.block)
        (byteFull (debias s b j)).bitbuffer = 0 →
      (pairBody cfg s b j).1.sink =
        s.sink ++ (if s.output_ready ≠ 0 then [s.bitbuffer_old] else []) ∧
      (pairBody cfg s b j).1.bitbuffer_old =
        xorBuffers (byteFull (debias s b j)).bitbuffer s.bitbuffer_old ∧
      (pairBody cfg s b j).1.output_ready = 1) ∧
    (∀ s buffer,
      (accepted (chunkStep cfg s buffer).log).length ≤ (accepted s.log).length + 1 →
      (chunkStep cfg s buffer).sink = s.sink) ∧
    (∀ chunks i c, (run cfg (init cfg) chunks).log[i]? = some c → c.written ≠ [] →
      c.fips_result = 0 ∧
      accepted ((run cfg (init cfg) chunks).log.take i) ≠ [] ∧
      c.written = [xorAll cfg.BUFFER_SIZE
        (accepted ((run cfg (init cfg) chunks).log.take i))]) := by
  refine ⟨?_, fun s buffer => chunk_first_acceptance_silent cfg hxor s buffer, ?_⟩
  · intro s b j _ hfull hres
    unfold pairBody
    rw [bufferFull_xor_accept cfg _ j hxor hfull hres]
    simp only [byteFull_sink, debias_sink, byteFull_bitbuffer_old, debias_bitbuffer_old,
      byteFull_output_ready, debias_output_ready, and_self]
  · intro chunks i c hc hw
    rcases (XorInv_run cfg hxor chunks).2.2.2 i c hc with h | h
    · exact absurd h hw
    · exact h

/-- Instance of C1 (amended) with 2500-byte blocks. The last bit of `B1` (all
0x00) arrives with `output_ready` not set: `B1` is accepted and nothing is
written. Then, `bitbuffer_old` being all 0x00 and `output_ready` set, the last
bit of `B2` (all 0xFF) arrives: `B2` is accepted, one block of 0x00 is written
and `bitbuffer_old` becomes all 0xFF. With one-byte blocks, the chunk
`2A 2A 2A` accepts one block and writes nothing. -/
theorem xor_mode_writes_previous_accumulator_witness :
    (pairBody (cfgXor 2500) (nearlyFull (cfgXor 2500)
        (List.replicate 2500 0) (List.replicate 2500 0) 1 0) 0x2A 0).1.sink = [] ∧
    (byteFull (debias (nearlyFull (cfgXor 2500)
        (List.replicate 2499 255 ++ [127]) (List.replicate 2500 0) 1 1) 0x15 0)).bitbuffer
      = List.replicate 2500 255 ∧
    (pairBody (cfgXor 2500) (nearlyFull (cfgXor 2500)
        (List.replicate 2499 255 ++ [127]) (List.replicate 2500 0) 1 1) 0x15 0).1.sink
      = [List.replicate 2500 0] ∧
    (pairBody (cfgXor 2500) (nearlyFull (cfgXor 2500)
        (List.replicate 2499 255 ++ [127]) (List.replicate 2500 0) 1 1) 0x15 0).1.bitbuffer_old
      = List.replicate 2500 255 ∧
    (chunkStep (cfgXor 1) (init (cfgXor 1)) [0x2A, 0x2A, 0x2A]).sink = [] := by
  have hB2 : (byteFull (debias (nearlyFull (cfgXor 2500)
      (List.replicate 2499 255 ++ [127]) (List.replicate 2500 0) 1 1) 0x15 0)).bitbuffer
      = List.replicate 2500 255 := by
    rw [byteFull_bitbuffer, debias_of_ne _ _ _ (by decide)]
    dsimp only [nearlyFull, cfgXor]
    rw [if_pos (by decide)]
    have h := store_last_one 2499
    simp only [Nat.reduceAdd] at h
    simp only [Nat.reduceSub]
    exact h
  have h1 := (xor_mode_writes_previous_accumulator (cfgXor 2500) rfl).1
    (nearlyFull (cfgXor 2500) (List.replicate 2500 0) (List.replicate 2500 0) 1 0)
    0x2A 0 (by decide) (by decide) rfl
  have h2 := (xor_mode_writes_previous_accumulator (cfgXor 2500) rfl).1
    (nearlyFull (cfgXor 2500) (List.replicate 2499 255 ++ [127]) (List.replicate 2500 0) 1 1)
    0x15 0 (by decide) (by decide) rfl
  refine ⟨h1.1, hB2, h2.1, ?_,
    (xor_mode_writes_previous_accumulator (cfgXor 1) rfl).2.1
      (init (cfgXor 1)) [0x2A, 0x2A, 0x2A] (by decide)⟩
  rw [h2.2.1, hB2]
  exact xorBuffers_replicate 2500 255 0

end RtlEntropy
